import Mathlib

/-!
Verification development for the essay-exam attempt/grading/dispute core
(`server/api.py`, `server/core/llm_service.py`).

Python text is modelled as `List Char`; timestamps as `Nat` (UTC ticks);
numeric scores as `ℚ` (the code moves Python floats around by assignment
and comparison only, so exact rationals are a faithful carrier for the
properties proved here).  Database rows become Lean structures, and each
endpoint body becomes a pure function from its inputs and the already
performed oracle outcome to `Except HErr` of its effect.  Fields of the
ORM rows that no verified property touches (model names, temperatures,
raw-response blobs) are omitted from the row structures.
-/

namespace Spec2Proof

/-- Python text modelled as a list of characters. -/
abbrev Text := List Char

/-- The opening curly brace character (written numerically). -/
def lbraceC : Char := Char.ofNat 123

/-- The closing curly brace character (written numerically). -/
def rbraceC : Char := Char.ofNat 125

/-- The backtick character (written numerically). -/
def btickC : Char := Char.ofNat 96

/-- Whitespace set of Python `str.strip` (space, tab, newline, CR, VT, FF). -/
def pyIsSpace (c : Char) : Bool :=
  c = ' ' || c = '\t' || c = '\n' || c = '\r' || c = Char.ofNat 11 || c = Char.ofNat 12

/-- Python `str.strip()`: drop leading and trailing whitespace. -/
def pystrip (s : Text) : Text :=
  ((s.dropWhile pyIsSpace).reverse.dropWhile pyIsSpace).reverse

/-- Lower-case one ASCII character, as Python `str.lower` does on ASCII input. -/
def pyLowerChar (c : Char) : Char :=
  if 'A' ≤ c && c ≤ 'Z' then Char.ofNat (c.toNat + 32) else c

/-- Python `str.lower()` restricted to the ASCII range used by the code. -/
def pyLower (s : Text) : Text := s.map pyLowerChar

/-- The text constant `keep`. -/
def keepT : Text := ['k', 'e', 'e', 'p']

/-- The text constant `update`. -/
def updateT : Text := ['u', 'p', 'd', 'a', 't', 'e']

/-- A JSON scalar-or-compound value as it comes out of `json.loads`.
Compound values that the verified code never inspects further are
collapsed into `jother`. -/
inductive JVal where
  | jnull : JVal
  | jbool : Bool → JVal
  | jnum : ℚ → JVal
  | jstr : Text → JVal
  | jother : JVal
deriving DecidableEq

/-- Parse an optional sign followed by decimal digits and an optional
fractional part, the plain-decimal fragment of Python `float(str)`. -/
def parseDecimal (s : Text) : Option ℚ :=
  let s := pystrip s
  let (sign, s) : ℚ × Text :=
    match s with
    | '-' :: rest => (-1, rest)
    | '+' :: rest => (1, rest)
    | _ => (1, s)
  let intPart := s.takeWhile Char.isDigit
  let rest := s.dropWhile Char.isDigit
  let (fracPart, rest) : Text × Text :=
    match rest with
    | '.' :: r => (r.takeWhile Char.isDigit, r.dropWhile Char.isDigit)
    | _ => ([], rest)
  if rest ≠ [] then none
  else if intPart = [] ∧ fracPart = [] then none
  else
    let iv : ℚ := intPart.foldl (fun acc c => acc * 10 + (c.toNat - 48 : ℕ)) 0
    let fv : ℚ := fracPart.foldl (fun acc c => acc * 10 + (c.toNat - 48 : ℕ)) 0
    some (sign * (iv + fv / (10 ^ fracPart.length)))

/-- Python `float(x)` on a JSON value: numbers pass through, booleans become
0/1, decimal strings parse, everything else raises (`none`). -/
def pyFloat : JVal → Option ℚ
  | .jnum q => some q
  | .jbool b => some (if b then 1 else 0)
  | .jstr s => parseDecimal s
  | .jnull => none
  | .jother => none

/-- Python truthiness of a JSON value (`jother` stands for compound values,
which the code only ever tests when they are non-empty). -/
def pyTruthy : JVal → Bool
  | .jnull => false
  | .jbool b => b
  | .jnum q => q ≠ 0
  | .jstr s => s ≠ []
  | .jother => true

/-- `x or default` on an optional JSON value, Python falsy semantics. -/
def pyOrJ (v : Option JVal) (dflt : JVal) : JVal :=
  match v with
  | none => dflt
  | some x => if pyTruthy x then x else dflt

/-- An `HTTPException`: status code plus detail message. -/
structure HErr where
  status : Nat
  detail : String
deriving DecidableEq

/-! ## Dispute adjudication (`llm_service.adjudicate_dispute_question` /
`adjudicate_dispute_overall`), modelled from the point where the raw LLM
reply has been parsed.  A `none` parse stands for an extraction failure
(`ValueError` / `json.JSONDecodeError`), which the code turns into a 503.
Python `str(x)` rendering of an arbitrary JSON value is an interpreter
detail, so it is passed in as a parameter `pyStr`; every theorem below
holds for all renderings. -/

/-- The keys of the parsed single-question dispute reply that
`adjudicate_dispute_question` reads; `none` = key absent. -/
structure QDisputeParsed where
  decision : Option JVal
  question_score_old : Option JVal
  question_score_new : Option JVal
  feedback_new : Option JVal
  rubric_justification : Option JVal
  evidence_quotes : Option (List JVal)
deriving DecidableEq

/-- The dict returned by `adjudicate_dispute_question` (the fields the
callers read). -/
structure QDisputeResult where
  decision : Text
  question_score_old : ℚ
  question_score_new : ℚ
  feedback_new : JVal
  rubric_justification : Option JVal
deriving DecidableEq

/-- `adjudicate_dispute_question`, from the parsed reply on: fill a missing
`question_score_old` from the caller's `original_score`, require
`decision` / `question_score_new` / `feedback_new`, coerce both scores with
`float()`, normalise the decision (strip + lower, anything other than
`keep`/`update` becomes `keep`) and force `question_score_new =
question_score_old` on `keep`. -/
def adjudicate_dispute_question (pyStr : JVal → Text) (original_score : ℚ)
    (parsed? : Option QDisputeParsed) : Except HErr QDisputeResult :=
  match parsed? with
  | none => .error ⟨503, "The AI returned an invalid response. Please try your dispute again."⟩
  | some parsed =>
    let score_old_v : JVal :=
      match parsed.question_score_old with
      | some v => v
      | none => .jnum original_score
    match parsed.decision, parsed.question_score_new, parsed.feedback_new with
    | some decV, some newV, some fb =>
      match pyFloat score_old_v, pyFloat newV with
      | some oldS, some newS =>
        let d := pyLower (pystrip (pyStr decV))
        let d := if d = keepT ∨ d = updateT then d else keepT
        let newS := if d = keepT then oldS else newS
        .ok ⟨d, oldS, newS, fb, parsed.rubric_justification⟩
      | _, _ =>
        .error ⟨503, "The AI returned an invalid response. Please try your dispute again."⟩
    | _, _, _ =>
      .error ⟨503, "The AI returned an incomplete response. Please try your dispute again."⟩

/-- One entry of `question_updates` in the overall-dispute reply, with the
keys the caller touches (`none` = key absent). -/
structure QUpdateParsed where
  question_number : Option JVal
  score_new : Option JVal
  feedback_new : Option JVal
deriving DecidableEq

/-- The keys of the parsed overall dispute reply that
`adjudicate_dispute_overall` reads. -/
structure ODisputeParsed where
  decision : Option JVal
  total_old : Option JVal
  total_new : Option JVal
  question_updates : Option (List QUpdateParsed)
  overall_explanation : Option JVal
deriving DecidableEq

/-- The dict returned by `adjudicate_dispute_overall`. -/
structure ODisputeResult where
  decision : Text
  total_old : JVal
  total_new : JVal
  question_updates : List QUpdateParsed
  overall_explanation : JVal
deriving DecidableEq

/-- `adjudicate_dispute_overall`, from the parsed reply on: require all five
keys, normalise the decision, and on `keep` force `total_new = total_old`
and `question_updates = []`.  Note the function does not coerce the totals
with `float()`; they are passed through as parsed. -/
def adjudicate_dispute_overall (pyStr : JVal → Text)
    (parsed? : Option ODisputeParsed) : Except HErr ODisputeResult :=
  match parsed? with
  | none => .error ⟨503, "The AI returned an invalid response. Please try your dispute again."⟩
  | some parsed =>
    match parsed.decision, parsed.total_old, parsed.total_new,
          parsed.question_updates, parsed.overall_explanation with
    | some decV, some told, some tnew, some qups, some expl =>
      let d := pyLower (pystrip (pyStr decV))
      let d := if d = keepT ∨ d = updateT then d else keepT
      if d = keepT then .ok ⟨d, told, told, [], expl⟩
      else .ok ⟨d, told, tnew, qups, expl⟩
    | _, _, _, _, _ =>
      .error ⟨503, "The AI returned an incomplete response. Please try your dispute again."⟩

/-! ## Data model rows (`server/core/models.py` as used by the endpoints). -/

/-- A `Submission` row (one attempt of one student at one exam). -/
structure Submission where
  id : Nat
  exam_id : Nat
  student_id : Nat
  started_at : Option Nat
  submitted_at : Option Nat
deriving DecidableEq

/-- An `Answer` row (one answer of one submission to one question). -/
structure Answer where
  id : Nat
  submission_id : Nat
  question_id : Nat
  student_answer : Text
  llm_score : Option ℚ
  llm_feedback : Option JVal
  graded_at : Option Nat
  instructor_edited : Bool
  instructor_score : Option ℚ
deriving DecidableEq

/-- A `Question` row. -/
structure Question where
  id : Nat
  exam_id : Nat
  q_index : Int
  prompt : Text
  points_possible : ℚ
deriving DecidableEq

/-- A `Rubric` row. -/
structure Rubric where
  question_id : Nat
  rubric_text : Text
deriving DecidableEq

/-- The parsed grading reply (`grade_data`) as `submit_response` and the
overdue sweep read it: `total_score` and `feedback` may be absent;
passthrough display keys (scores, explanation, rubric breakdown) are not
modelled. -/
structure GradeData where
  total_score : Option JVal
  feedback : Option JVal
deriving DecidableEq

/-- The tables `submit_response` touches, plus fresh autoincrement ids. -/
structure Db where
  submissions : List Submission
  answers : List Answer
  next_submission_id : Nat
  next_answer_id : Nat
deriving DecidableEq

/-! ## `submit_response` (`api.py`): record one answer, store the oracle
grade, auto-submit on completion. -/

/-- Keep whichever of the accumulator and the next row has the later
`started_at` (`NULL` ordering last under SQLite `ORDER BY ... DESC`; on
equal keys the earlier row is kept). -/
def pickBetter (best : Option Submission) (s : Submission) : Option Submission :=
  match best with
  | none => some s
  | some b =>
    match b.started_at, s.started_at with
    | none, some _ => some s
    | some bs, some ss => if bs < ss then some s else some b
    | _, none => some b

/-- The latest in-progress submission for (exam, student): filter on
`submitted_at IS NULL`, order by `started_at DESC`, take the first. -/
def pickLatestInProgress (subs : List Submission) (exam_id student_id : Nat) :
    Option Submission :=
  (subs.filter (fun s =>
      s.exam_id = exam_id && s.student_id = student_id &&
        s.submitted_at = none)).foldl pickBetter none

/-- Replace the submission row with id `sid` by `f` applied to it. -/
def updateSubmission (subs : List Submission) (sid : Nat)
    (f : Submission → Submission) : List Submission :=
  subs.map (fun s => if s.id = sid then f s else s)

/-- Step 1 of `submit_response` after grading: find the latest in-progress
submission for (exam, student); create a fresh one (started now, not
submitted) if none exists; set `started_at` to now if the found one was
never started.  Returns the updated table and the id of the target row. -/
def resolveTargetSubmission (now : Nat) (exam_id student_id : Nat) (db : Db) :
    Db × Nat :=
  match pickLatestInProgress db.submissions exam_id student_id with
  | none =>
    let sub : Submission :=
      ⟨db.next_submission_id, exam_id, student_id, some now, none⟩
    ({ db with submissions := db.submissions ++ [sub],
               next_submission_id := db.next_submission_id + 1 }, sub.id)
  | some sub =>
    if sub.started_at = none then
      ({ db with submissions :=
          (updateSubmission db.submissions sub.id
            (fun s => { s with started_at := some now })) }, sub.id)
    else (db, sub.id)

/-- The grade-result payload returned to the student (modelled keys only). -/
structure GradeResult where
  question_id : Nat
  total_score : JVal
  feedback : JVal
deriving DecidableEq

/-- `submit_response`: after the oracle has been called and its reply
parsed (`grade?`; an `Except.error` is a failed LLM call or extraction,
re-raised before anything is written), resolve the target submission,
upsert the answer for (submission, question) with
`float(grade_data.get("total_score", 0.0))` as the score, commit, then
re-read the answer count and mark the submission submitted when every
question is answered.  A `float()` failure propagates as the generic 500
of the outer handler, before any write. -/
def submit_response (now : Nat) (exam_id question_id student_id : Nat)
    (questions : List Nat) (response_text : Text)
    (grade? : Except HErr GradeData) (db : Db) :
    Except HErr (Db × GradeResult) :=
  if question_id ∉ questions then .error ⟨404, "Question not found"⟩
  else
    match grade? with
    | .error e => .error e
    | .ok grade_data =>
      match pyFloat ((grade_data.total_score).getD (.jnum 0)) with
      | none =>
        .error ⟨500, "An unexpected error occurred while grading your response. Please try again."⟩
      | some sc =>
        let (db, sid) := resolveTargetSubmission now exam_id student_id db
        let feedback := (grade_data.feedback).getD (.jstr [])
        let upd : Answer → Answer := fun x =>
          { x with student_answer := response_text, llm_score := some sc,
                   llm_feedback := some feedback, graded_at := some now }
        let db :=
          match db.answers.find? (fun a =>
              a.submission_id = sid && a.question_id = question_id) with
          | some a =>
            { db with answers := db.answers.map (fun x => if x.id = a.id then upd x else x) }
          | none =>
            let row : Answer := ⟨db.next_answer_id, sid, question_id, response_text,
              some sc, some feedback, some now, false, none⟩
            { db with answers := db.answers ++ [row], next_answer_id := db.next_answer_id + 1 }
        let answered := (db.answers.filter (fun a => a.submission_id = sid)).length
        let db :=
          if answered ≥ questions.length &&
             (db.submissions.find? (fun s => s.id = sid)).all
               (fun s => s.submitted_at = none) then
            { db with submissions :=
                (updateSubmission db.submissions sid
                  (fun s => { s with submitted_at := some now })) }
          else db
        .ok (db, ⟨question_id, (grade_data.total_score).getD (.jnum 0), feedback⟩)

/-! ## Overdue sweep (`get_assigned_exams`, `api.py`): auto-submit and
auto-grade one overdue submission. -/

/-- The per-answer step of the sweep loop: an ungraded answer of this
submission whose question and rubric exist is graded with the oracle
outcome for it; any failure inside the loop body (LLM error, `float()`
error) is caught and leaves that answer untouched. -/
def sweepAnswer (now : Nat) (oracle : Nat → Except HErr GradeData)
    (questions : List Question) (rubrics : List Rubric) (sub_id : Nat)
    (a : Answer) : Answer :=
  if a.submission_id = sub_id && a.llm_score = none then
    match questions.find? (fun q => q.id = a.question_id) with
    | some _q =>
      match rubrics.find? (fun r => r.question_id = a.question_id) with
      | some _r =>
        match oracle a.id with
        | .ok gd =>
          match pyFloat ((gd.total_score).getD (.jnum 0)) with
          | some sc =>
            { a with llm_score := some sc,
                     llm_feedback := some ((gd.feedback).getD (.jstr [])),
                     graded_at := some now }
          | none => a
        | .error _ => a
      | none => a
    | none => a
  else a

/-- The overdue block of `get_assigned_exams` for one (exam, submission):
when the due date is past and the submission is not yet submitted, set
`submitted_at` to now (and `started_at` to now if unset) and grade every
ungraded answer; otherwise change nothing. -/
def sweep_overdue (now : Nat) (due_date : Option Nat)
    (oracle : Nat → Except HErr GradeData) (questions : List Question)
    (rubrics : List Rubric) (sub : Submission) (answers : List Answer) :
    Submission × List Answer :=
  match due_date with
  | some dd =>
    if dd < now then
      match sub.submitted_at with
      | none =>
        let sub' := { sub with submitted_at := some now,
                               started_at := some (sub.started_at.getD now) }
        (sub', answers.map (sweepAnswer now oracle questions rubrics sub.id))
      | some _ => (sub, answers)
    else (sub, answers)
  | none => (sub, answers)

/-! ## Practice-exam disputes (`api.py`): `_handle_question_dispute`,
`_handle_overall_dispute`, `_build_lock_state`,
`_compute_submission_total`. -/

/-- A `Regrade` row (one question-level dispute, keyed by answer). -/
structure Regrade where
  answer_id : Nat
  student_argument : Text
  regrade_score : ℚ
  regrade_feedback : JVal
  regraded_at : Nat
deriving DecidableEq

/-- A `SubmissionRegrade` row (one whole-attempt dispute). -/
structure SubmissionRegrade where
  submission_id : Nat
  student_argument : Text
  decision : Text
  explanation : JVal
  old_total_score : ℤ
  new_total_score : ℤ
deriving DecidableEq

/-- The dispute-relevant tables for a practice submission. -/
structure PracticeState where
  answers : List Answer
  regrades : List Regrade
  subRegrades : List SubmissionRegrade
deriving DecidableEq

/-- Python `round(x, 2)` (round half to even at two decimals). -/
def pyRound2 (q : ℚ) : ℚ :=
  let x := q * 100
  let f := ⌊x⌋
  let r := x - f
  let n : ℤ := if r < 1/2 then f else if 1/2 < r then f + 1
               else if Even f then f else f + 1
  (n : ℚ) / 100

/-- Python `int(x)` (truncation toward zero). -/
def pyInt (q : ℚ) : ℤ := if 0 ≤ q then ⌊q⌋ else ⌈q⌉

/-- `_compute_submission_total`: sum each answer's instructor override if
edited, else its oracle score, else nothing; round to two decimals. -/
def computeSubmissionTotal (answers : List Answer) (sub_id : Nat) : ℚ :=
  pyRound2 ((answers.filter (fun a => a.submission_id = sub_id)).foldl
    (fun t a =>
      if a.instructor_edited && a.instructor_score.isSome then
        t + a.instructor_score.getD 0
      else if a.llm_score.isSome then t + a.llm_score.getD 0
      else t) 0)

/-- The lock-state projection returned with dispute responses. -/
structure LockState where
  overall_used : Bool
  disputed_questions : List Int
  num_questions : Nat
deriving DecidableEq

/-- `_build_lock_state`: question numbers with a `Regrade` on this
submission's answers (sorted), whether a `SubmissionRegrade` exists, and
the question count. -/
def build_lock_state (questions : List Question) (st : PracticeState)
    (sub_id : Nat) : LockState :=
  let idx := st.regrades.filterMap (fun r =>
    match st.answers.find? (fun a => a.id = r.answer_id && a.submission_id = sub_id) with
    | some a => (questions.find? (fun q => q.id = a.question_id)).map (fun q => q.q_index)
    | none => none)
  { overall_used := st.subRegrades.any (fun r => r.submission_id = sub_id),
    disputed_questions := idx.mergeSort (fun a b => a ≤ b),
    num_questions := questions.length }

/-- Response payload of `_handle_question_dispute` (modelled keys). -/
structure QDisputeResponse where
  decision : Text
  question_number : Int
  old_score : ℚ
  new_score : ℚ
  old_feedback : JVal
  new_feedback : JVal
  old_total : ℚ
  new_total : ℚ
  lock_state : LockState
deriving DecidableEq

/-- `_handle_question_dispute`: validate the question number, find the
answer, reject with 409 when an overall dispute exists or when this
question already has a `Regrade`, call the oracle adjudicator, record a
`Regrade` row, and overwrite the answer's score/feedback only when the
decision is `update`. -/
def handle_question_dispute (pyStr : JVal → Text)
    (reply? : Option QDisputeParsed) (questions : List Question)
    (sub_id : Nat) (question_number : Option Int) (argument : Text)
    (now : Nat) (st : PracticeState) :
    Except HErr (PracticeState × QDisputeResponse) :=
  match question_number with
  | none => .error ⟨400, "question_number is required for question disputes"⟩
  | some qn =>
    if qn < 1 ∨ qn > (questions.length : Int) then
      .error ⟨400, "question_number out of range"⟩
    else
      match questions.find? (fun q => q.q_index = qn) with
      | none => .error ⟨404, "Question not found"⟩
      | some question =>
        match st.answers.find? (fun a =>
            a.submission_id = sub_id && a.question_id = question.id) with
        | none => .error ⟨404, "No answer found for this question"⟩
        | some answer =>
          if st.subRegrades.any (fun r => r.submission_id = sub_id) then
            .error ⟨409, "Overall dispute already submitted; disputes locked for this attempt."⟩
          else if st.regrades.any (fun r => r.answer_id = answer.id) then
            .error ⟨409, "You can only dispute each question once."⟩
          else
            let original_score := answer.llm_score.getD 0
            let original_feedback := pyOrJ answer.llm_feedback
              (.jstr ['N', 'o', ' ', 'f', 'e', 'e', 'd', 'b', 'a', 'c', 'k'])
            match adjudicate_dispute_question pyStr original_score reply? with
            | .error e => .error e
            | .ok llm =>
              let decision := llm.decision
              let new_score := llm.question_score_new
              let new_feedback := llm.feedback_new
              let regrade : Regrade := ⟨answer.id, argument, new_score, new_feedback, now⟩
              let old_total := computeSubmissionTotal st.answers sub_id
              let answers' :=
                if decision = updateT then
                  st.answers.map (fun x =>
                    if x.id = answer.id then
                      { x with llm_score := some new_score,
                               llm_feedback := some new_feedback }
                    else x)
                else st.answers
              let st' : PracticeState :=
                { st with answers := answers', regrades := st.regrades ++ [regrade] }
              let new_total := computeSubmissionTotal st'.answers sub_id
              .ok (st', ⟨decision, qn, original_score, new_score, original_feedback,
                new_feedback, old_total, new_total,
                build_lock_state questions st' sub_id⟩)

/-- Python `x == n` between a JSON value and an `int` dict key (`True`
equals `1`, numbers compare by value, everything else is unequal). -/
def jvalEqInt (v : JVal) (n : Int) : Bool :=
  match v with
  | .jnum x => x = (n : ℚ)
  | .jbool b => (if b then (1 : Int) else 0) = n
  | _ => false

/-- One iteration of the `question_updates` loop of
`_handle_overall_dispute`: skip unknown or falsy question numbers and
missing answers; a missing or non-numeric `score_new` raises (KeyError /
ValueError), aborting the whole request before commit. -/
def applyQUpdate (questions : List Question) (sub_id : Nat)
    (answers : List Answer) (upd : QUpdateParsed) : Except HErr (List Answer) :=
  match upd.question_number with
  | none => .ok answers
  | some v =>
    if pyTruthy v then
      match questions.find? (fun q => jvalEqInt v q.q_index) with
      | some q =>
        match answers.find? (fun a =>
            a.submission_id = sub_id && a.question_id = q.id) with
        | some answer =>
          match upd.score_new with
          | none => .error ⟨500, "Internal Server Error"⟩
          | some sv =>
            match pyFloat sv with
            | none => .error ⟨500, "Internal Server Error"⟩
            | some f =>
              let fb? : Option JVal :=
                match upd.feedback_new with
                | some fv => if pyTruthy fv then some fv else none
                | none => none
              .ok (answers.map (fun x =>
                if x.id = answer.id then
                  { x with llm_score := some f,
                           llm_feedback :=
                             (match fb? with
                              | some fv => some fv
                              | none => x.llm_feedback) }
                else x))
        | none => .ok answers
      | none => .ok answers
    else .ok answers

/-- Response payload of `_handle_overall_dispute` (modelled keys). -/
structure ODisputeResponse where
  decision : Text
  old_total : ℚ
  new_total : ℚ
  lock_state : LockState
deriving DecidableEq

/-- `_handle_overall_dispute`: reject with 409 when any question-level
`Regrade` exists on this submission or when an overall dispute already
exists; call the oracle adjudicator; on `update` apply each per-question
change; record a `SubmissionRegrade` row with before/after totals. -/
def handle_overall_dispute (pyStr : JVal → Text)
    (reply? : Option ODisputeParsed) (questions : List Question)
    (sub_id : Nat) (argument : Text) (st : PracticeState) :
    Except HErr (PracticeState × ODisputeResponse) :=
  if ((st.regrades.filter (fun r =>
      st.answers.any (fun a => a.id = r.answer_id && a.submission_id = sub_id))).length) > 0 then
    .error ⟨409, "Overall review is only available before disputing individual questions."⟩
  else if st.subRegrades.any (fun r => r.submission_id = sub_id) then
    .error ⟨409, "Overall dispute already submitted for this attempt."⟩
  else
    let old_total := computeSubmissionTotal st.answers sub_id
    match adjudicate_dispute_overall pyStr reply? with
    | .error e => .error e
    | .ok llm =>
      let decision := llm.decision
      let explanation := llm.overall_explanation
      let applied : Except HErr (List Answer) :=
        if decision = updateT then
          llm.question_updates.foldlM (applyQUpdate questions sub_id) st.answers
        else .ok st.answers
      match applied with
      | .error e => .error e
      | .ok answers' =>
        let new_total := computeSubmissionTotal answers' sub_id
        let subRegrade : SubmissionRegrade :=
          ⟨sub_id, argument, decision, explanation, pyInt old_total, pyInt new_total⟩
        let st' : PracticeState :=
          { st with answers := answers', subRegrades := st.subRegrades ++ [subRegrade] }
        .ok (st', ⟨decision, old_total, new_total, build_lock_state questions st' sub_id⟩)

/-! ## Assigned-exam disputes (`api.py`): `submit_assigned_dispute`,
`resolve_dispute`. -/

/-- An `AssignedExamDispute` row; `question_id = none` is a whole-attempt
dispute. -/
structure AssignedExamDispute where
  id : Nat
  submission_id : Nat
  question_id : Option Nat
  student_argument : Text
  status : String
  instructor_decision : Option String
  instructor_response : Option Text
  resolved_at : Option Nat
  resolved_by : Option Nat
  created_at : Nat
deriving DecidableEq

/-- Tail of `submit_assigned_dispute`: the common overall-dispute lock
check (runs for both targets) followed by insertion of one `pending`
dispute row. -/
def finishAssignedDispute (sub_id : Nat) (question_id : Option Nat)
    (argument : Text) (disputes : List AssignedExamDispute) (next_id : Nat)
    (now : Nat) : Except HErr (List AssignedExamDispute × AssignedExamDispute) :=
  if disputes.any (fun d => d.submission_id = sub_id && d.question_id = none) then
    .error ⟨409, "Overall dispute already submitted; disputes locked for this attempt."⟩
  else
    let d : AssignedExamDispute :=
      ⟨next_id, sub_id, question_id, argument, "pending", none, none, none, none, now⟩
    .ok (disputes ++ [d], d)

/-- `submit_assigned_dispute` after submission resolution: validate the
target, reject a duplicate overall dispute or a duplicate per-question
dispute with 409, reject a question dispute with 409 when an overall
dispute exists, then record a single `pending` row
(`finishAssignedDispute`).  The function body contains no oracle
invocation. -/
def submit_assigned_dispute (sub_id : Nat) (questions : List Question)
    (target : String) (question_number : Option Int) (argument : Text)
    (disputes : List AssignedExamDispute) (next_id : Nat) (now : Nat) :
    Except HErr (List AssignedExamDispute × AssignedExamDispute) :=
  if target ≠ "question" ∧ target ≠ "overall" then
    .error ⟨400, "target must be question or overall"⟩
  else if target = "overall" then
    if disputes.any (fun d => d.submission_id = sub_id && d.question_id = none) then
      .error ⟨409, "Overall dispute already submitted for this exam"⟩
    else finishAssignedDispute sub_id none argument disputes next_id now
  else
    match question_number with
    | none => .error ⟨400, "question_number is required for question disputes"⟩
    | some qn =>
      if qn < 1 ∨ qn > (questions.length : Int) then
        .error ⟨400, "question_number out of range"⟩
      else
        match questions.find? (fun q => q.q_index = qn) with
        | none => .error ⟨404, "Question not found"⟩
        | some question =>
          if disputes.any (fun d =>
              d.submission_id = sub_id && d.question_id = some question.id) then
            .error ⟨409, "You can only dispute each question once."⟩
          else finishAssignedDispute sub_id (some question.id) argument disputes next_id now

/-- `resolve_dispute`: instructor-only; validate the decision; reject a
non-pending dispute; check exam ownership; then set
status/response/decision/timestamp/resolver on the dispute row.  The
`approved`-and-question branch of the source only looks the answer up and
executes `pass`, so the answers table is returned unchanged. -/
def resolve_dispute (user_type : String) (instructor_id : Nat)
    (instructor_decision : String) (instructor_response : Text) (now : Nat)
    (dispute? : Option AssignedExamDispute) (exam_instructor_id : Nat)
    (answers : List Answer) :
    Except HErr (AssignedExamDispute × List Answer) :=
  if user_type ≠ "instructor" then
    .error ⟨403, "Only instructors can resolve disputes"⟩
  else if instructor_decision ≠ "approved" ∧ instructor_decision ≠ "rejected" ∧
      instructor_decision ≠ "partially_approved" then
    .error ⟨400, "instructor_decision must be approved, rejected, or partially_approved"⟩
  else
    match dispute? with
    | none => .error ⟨404, "Dispute not found"⟩
    | some dispute =>
      if dispute.status ≠ "pending" then
        .error ⟨400, "Dispute has already been resolved"⟩
      else if exam_instructor_id ≠ instructor_id then
        .error ⟨403, "You can only resolve disputes for your own exams"⟩
      else
        let d' : AssignedExamDispute :=
          { dispute with status := "resolved",
                         instructor_response := some instructor_response,
                         instructor_decision := some instructor_decision,
                         resolved_at := some now,
                         resolved_by := some instructor_id }
        .ok (d', answers)

/-! ## `extract_json_from_response` (`llm_service.py`): fence stripping,
balanced-delimiter scan with string/escape tracking, `rfind` fallback,
and the repair passes. -/

/-- The mutable state of the delimiter scan: open-brace and open-bracket
counts, the inside-a-quoted-string flag, and the escape-pending flag. -/
structure ScanState where
  brace : Int
  bracket : Int
  inString : Bool
  escapeNext : Bool
deriving DecidableEq

/-- Scan state before the first character. -/
def initScan : ScanState := ⟨0, 0, false, false⟩

/-- Outcome of the scan: `broke e` when the matching delimiter count
returned to zero after `e` characters (the loop `break`), or `ended st`
with the final counters when the text ran out. -/
inductive ScanOut where
  | broke : Nat → ScanOut
  | ended : ScanState → ScanOut
deriving DecidableEq

/-- The `for i in range(start_idx, len(text))` loop of the extraction
algorithm, over the text after `start_idx`: `\` sets the escape flag, an
unescaped `"` toggles the in-string flag, and outside strings each
delimiter adjusts its counter, breaking when the counter of the kind
being scanned returns to zero. -/
def scanLoop (isArray : Bool) (st : ScanState) (i : Nat) : Text → ScanOut
  | [] => .ended st
  | c :: rest =>
    if st.escapeNext then scanLoop isArray { st with escapeNext := false } (i + 1) rest
    else if c = '\\' then scanLoop isArray { st with escapeNext := true } (i + 1) rest
    else if c = '"' then scanLoop isArray { st with inString := !st.inString } (i + 1) rest
    else if st.inString then scanLoop isArray st (i + 1) rest
    else
      let st' : ScanState :=
        { st with
          brace := st.brace + (if c = lbraceC then 1 else 0) -
                   (if c = rbraceC then 1 else 0),
          bracket := st.bracket + (if c = '[' then 1 else 0) -
                     (if c = ']' then 1 else 0) }
      if isArray then
        if st'.bracket = 0 then .broke (i + 1) else scanLoop isArray st' (i + 1) rest
      else
        if st'.brace = 0 then .broke (i + 1) else scanLoop isArray st' (i + 1) rest

/-- Python `str.find` for one character (`none` = `-1`). -/
def pyFind (c : Char) (s : Text) : Option Nat := s.findIdx? (fun x => x = c)

/-- Python `str.rfind` for one character (`none` = `-1`). -/
def pyRFind (c : Char) (s : Text) : Option Nat :=
  match s.reverse.findIdx? (fun x => x = c) with
  | some j => some (s.length - 1 - j)
  | none => none

/-- Split a text on one separator character (Python `str.split(sep)`). -/
def splitOnChar (sep : Char) : Text → List Text
  | [] => [[]]
  | c :: rest =>
    if c = sep then [] :: splitOnChar sep rest
    else
      match splitOnChar sep rest with
      | [] => [[c]]
      | l :: ls => (c :: l) :: ls

/-- Join texts with one separator character (Python `sep.join`). -/
def joinOnChar (sep : Char) : List Text → Text
  | [] => []
  | [l] => l
  | l :: ls => l ++ sep :: joinOnChar sep ls

/-- Python `str.startswith("```")`. -/
def startsWith3Ticks (s : Text) : Bool :=
  [btickC, btickC, btickC].isPrefixOf s

/-- The markdown-fence stripping step: when the (stripped) text starts
with three backticks, drop the first line and everything from the first
later line that itself strips to a fence marker (or keep to the end if no
closing marker exists). -/
def stripFence (text : Text) : Text :=
  if startsWith3Ticks text then
    let lines := splitOnChar '\n' text
    match (lines.drop 1).findIdx? (fun l => startsWith3Ticks (pystrip l)) with
    | some j => joinOnChar '\n' ((lines.drop 1).take j)
    | none => joinOnChar '\n' (lines.drop 1)
  else text

/-- Locate the first `{` or `[`, whichever occurs first, deciding whether
the payload is scanned as an object or as an array. -/
def findStart (t : Text) : Option (Nat × Bool) :=
  match pyFind lbraceC t, pyFind '[' t with
  | none, none => none
  | some o, none => some (o, false)
  | none, some a => some (a, true)
  | some o, some a => if a < o then some (a, true) else some (o, false)

/-- Steps 2-3 of the extraction, on the fence-stripped text: locate the
first delimiter, run the balanced scan, and fall back to `rfind` of the
closing delimiter when the scan could not balance. -/
def extractFrom (text : Text) : Except String Text :=
  match findStart text with
  | none => .error "No JSON object or array found in response"
  | some (start, isArray) =>
    let tail := text.drop start
    match scanLoop isArray initScan 0 tail with
    | .broke e => .ok (tail.take e)
    | .ended st =>
      if (if isArray then st.bracket ≠ 0 else st.brace ≠ 0) then
        match pyRFind (if isArray then ']' else rbraceC) text with
        | some j =>
          if j + 1 ≤ start then .error "Could not find complete JSON"
          else .ok (tail.take (j + 1 - start))
        | none => .error "Could not find complete JSON"
      else .ok (tail.take 0)

/-- Steps 1-3 of `extract_json_from_response`: strip, strip a fence, then
locate and scan.  The result is the substring handed to `json.loads`
(`error` = ValueError). -/
def extract_candidate (raw : Text) : Except String Text :=
  extractFrom (stripFence (pystrip raw))

/-- Whitespace class of the regex `\s` (ASCII range). -/
def reIsSpace (c : Char) : Bool := pyIsSpace c

/-- `re.sub(r",\s*X", "X", s)` for a closing delimiter `X`: every comma
followed only by whitespace and then `X` is replaced by `X` alone,
left to right, non-overlapping. -/
def stripCommaBefore (close : Char) : Text → Text
  | [] => []
  | c :: rest =>
    if c = ',' then
      match h : rest.dropWhile reIsSpace with
      | c2 :: rest2 =>
        if c2 = close then close :: stripCommaBefore close rest2
        else c :: stripCommaBefore close rest
      | [] => c :: stripCommaBefore close rest
    else c :: stripCommaBefore close rest
termination_by l => l.length
decreasing_by
  all_goals simp only [List.length_cons]
  · have hle : (rest.dropWhile reIsSpace).length ≤ rest.length :=
      (List.IsSuffix.sublist (List.dropWhile_suffix reIsSpace)).length_le
    rw [h] at hle
    simp only [List.length_cons] at hle
    omega
  · omega
  · omega
  · omega

/-- Python `str.endswith(suffix)`. -/
def pyEndsWith (suffix s : Text) : Bool := suffix.isSuffixOf s

/-- The whole of `extract_json_from_response`, parameterised by the JSON
parser `loads` (Python's `json.loads`, an external library; `none` = a
`JSONDecodeError`): extract the candidate substring, parse it, and on
failure retry after stripping trailing commas, then after removing
control characters; surface a ValueError when all passes fail. -/
def extract_json_from_response {α : Type} (loads : Text → Option α)
    (raw : Text) : Except String α :=
  match extract_candidate raw with
  | .error e => .error e
  | .ok json_str =>
    match loads json_str with
    | some v => .ok v
    | none =>
      let fixed := stripCommaBefore rbraceC json_str
      let fixed := stripCommaBefore ']' fixed
      let fixed := pystrip fixed
      let fixed :=
        if pyEndsWith [',', rbraceC] fixed then
          fixed.dropLast.dropLast ++ [rbraceC]
        else fixed
      let fixed :=
        if pyEndsWith [',', ']'] fixed then
          fixed.dropLast.dropLast ++ [']']
        else fixed
      match loads fixed with
      | some v => .ok v
      | none =>
        let fixed2 := fixed.filter (fun c => 32 ≤ c.toNat || c = '\n' || c = '\r' || c = '\t')
        match loads fixed2 with
        | some v => .ok v
        | none => .error "Failed to parse JSON from LLM response."

/-- A reply wrapped in a markdown fence, as the oracle often returns it. -/
def fenceWrap (s : Text) : Text :=
  [btickC, btickC, btickC, 'j', 's', 'o', 'n', '\n'] ++ s ++
    ['\n', btickC, btickC, btickC]

/-- The serialised text of a well-formed JSON object, as the balanced
scan sees it: it begins with `{`, ends with `}`, the scan of the bare
text closes its braces exactly at the end, and it contains no backtick
(so no line of it can be mistaken for a fence marker). -/
def ScannableObject (s : Text) : Prop :=
  s.head? = some lbraceC ∧ s.getLast? = some rbraceC ∧
    scanLoop false initScan 0 s = .broke s.length ∧ btickC ∉ s

instance (s : Text) : Decidable (ScannableObject s) := by
  unfold ScannableObject; infer_instance

/-- Leading prose acceptable before a fenced block: its first
non-whitespace character exists and is not a backtick. -/
def proseLead (p : Text) : Bool :=
  match p.dropWhile pyIsSpace with
  | c :: _ => c ≠ btickC
  | [] => false

/-- A concrete well-formed object reply whose string value holds an
escaped quote. -/
def exS7 : Text :=
  [lbraceC, '"', 'a', '\\', '"', 'b', '"', ':', '1', rbraceC]

/-- Concrete leading prose for the round-trip witness. -/
def prose7 : Text := ['S', 'u', 'r', 'e', ',', ' ', 'h', 'e', 'r', 'e', ':', ' ']

/-- Concrete trailing prose for the round-trip witness. -/
def trail7 : Text := [' ', 'h', 'o', 'p', 'e']

/-! ## Dispute submission histories.  One student drives one attempt, so a
reachable dispute state is the fold of a list of submissions over the
empty dispute tables. -/

/-- One practice-exam dispute submission: the caller-controlled request
fields plus the oracle outcome for that call. -/
inductive PracticeOp where
  | qdis : (JVal → Text) → Option QDisputeParsed → Option Int → Text → Nat → PracticeOp
  | odis : (JVal → Text) → Option ODisputeParsed → Text → PracticeOp

/-- Apply one practice dispute submission; a rejected request raises
before `db.commit`, so it leaves the tables as they were. -/
def applyPracticeOp (questions : List Question) (sub_id : Nat)
    (st : PracticeState) : PracticeOp → PracticeState
  | .qdis pyStr reply qn arg now =>
    match handle_question_dispute pyStr reply questions sub_id qn arg now st with
    | .ok (st', _) => st'
    | .error _ => st
  | .odis pyStr reply arg =>
    match handle_overall_dispute pyStr reply questions sub_id arg st with
    | .ok (st', _) => st'
    | .error _ => st

/-- Fold a history of practice dispute submissions. -/
def runPracticeOps (questions : List Question) (sub_id : Nat)
    (st : PracticeState) (ops : List PracticeOp) : PracticeState :=
  ops.foldl (applyPracticeOp questions sub_id) st

/-- One assigned-exam dispute submission request. -/
structure AssignedOp where
  target : String
  question_number : Option Int
  argument : Text
  now : Nat

/-- Apply one assigned-exam dispute submission; a rejected request leaves
the table as it was. -/
def applyAssignedOp (questions : List Question) (sub_id : Nat)
    (disputes : List AssignedExamDispute) (op : AssignedOp) :
    List AssignedExamDispute :=
  match submit_assigned_dispute sub_id questions op.target op.question_number
      op.argument disputes disputes.length op.now with
  | .ok (disputes', _) => disputes'
  | .error _ => disputes

/-- Fold a history of assigned-exam dispute submissions. -/
def runAssignedOps (questions : List Question) (sub_id : Nat)
    (disputes : List AssignedExamDispute) (ops : List AssignedOp) :
    List AssignedExamDispute :=
  ops.foldl (applyAssignedOp questions sub_id) disputes

/-- The practice-dispute lock invariant for one submission: question
regrades reference pairwise-distinct answers of this submission, at most
one whole-attempt regrade exists (and only for this submission), and the
two kinds never coexist. -/
def PracticeInv (sub_id : Nat) (st : PracticeState) : Prop :=
  (st.regrades.map (fun r => r.answer_id)).Nodup ∧
  (∀ r ∈ st.regrades, ∃ a ∈ st.answers,
    a.id = r.answer_id ∧ a.submission_id = sub_id) ∧
  st.subRegrades.length ≤ 1 ∧
  (∀ r ∈ st.subRegrades, r.submission_id = sub_id) ∧
  (st.subRegrades = [] ∨ st.regrades = [])

/-! ## Helper lemmas: successful-run inversions. -/

/-- A successful question adjudication normalises the decision to
`keep`/`update` and forces score equality on `keep`. -/
theorem adjudicate_q_ok_facts (pyStr : JVal → Text) (original_score : ℚ)
    (parsed? : Option QDisputeParsed) (r : QDisputeResult)
    (h : adjudicate_dispute_question pyStr original_score parsed? = .ok r) :
    (r.decision = keepT ∨ r.decision = updateT) ∧
    (r.decision = keepT → r.question_score_new = r.question_score_old) := by
  unfold adjudicate_dispute_question at h
  rcases parsed? with _ | parsed
  · simp at h
  · simp only at h
    split at h
    · split at h
      · rcases h with ⟨⟩
        constructor
        · dsimp only
          split
          · rename_i hc; exact hc
          · exact Or.inl rfl
        · dsimp only
          intro hk
          rw [if_pos hk]
      · simp at h
    · simp at h

/-- A successful overall adjudication normalises the decision to
`keep`/`update` and on `keep` forces equal totals and an empty update
list. -/
theorem adjudicate_o_ok_facts (pyStr : JVal → Text)
    (parsed? : Option ODisputeParsed) (r : ODisputeResult)
    (h : adjudicate_dispute_overall pyStr parsed? = .ok r) :
    (r.decision = keepT ∨ r.decision = updateT) ∧
    (r.decision = keepT → r.total_new = r.total_old ∧ r.question_updates = []) := by
  unfold adjudicate_dispute_overall at h
  rcases parsed? with _ | parsed
  · simp at h
  · simp only at h
    split at h
    · split at h
      · split at h
        · rcases h with ⟨⟩
          rename_i hc hk
          exact ⟨Or.inl hk, fun _ => ⟨rfl, rfl⟩⟩
        · rcases h with ⟨⟩
          rename_i hc hk
          exact ⟨Or.inr (hc.resolve_left hk), fun hkk => absurd hkk hk⟩
      · rw [if_pos rfl] at h
        rcases h with ⟨⟩
        exact ⟨Or.inl rfl, fun _ => ⟨rfl, rfl⟩⟩
    · simp at h

/-- Inversion of a successful `_handle_question_dispute` run: every guard
passed, the adjudicator succeeded, one `Regrade` row was appended, the
overall-dispute table is untouched, and the answers changed only via the
`update` branch. -/
theorem handle_question_dispute_ok (pyStr : JVal → Text)
    (reply? : Option QDisputeParsed) (questions : List Question)
    (sub_id : Nat) (qn? : Option Int) (arg : Text) (now : Nat)
    (st st' : PracticeState) (resp : QDisputeResponse)
    (h : handle_question_dispute pyStr reply? questions sub_id qn? arg now st
          = .ok (st', resp)) :
    ∃ n question answer llm,
      qn? = some n ∧
      questions.find? (fun q => q.q_index = n) = some question ∧
      st.answers.find? (fun a =>
        a.submission_id = sub_id && a.question_id = question.id) = some answer ∧
      st.subRegrades.any (fun r => r.submission_id = sub_id) = false ∧
      st.regrades.any (fun r => r.answer_id = answer.id) = false ∧
      adjudicate_dispute_question pyStr (answer.llm_score.getD 0) reply? = .ok llm ∧
      resp.decision = llm.decision ∧
      st'.regrades = st.regrades ++
        [⟨answer.id, arg, llm.question_score_new, llm.feedback_new, now⟩] ∧
      st'.subRegrades = st.subRegrades ∧
      st'.answers = (if llm.decision = updateT then
          st.answers.map (fun x => if x.id = answer.id then
            { x with llm_score := some llm.question_score_new,
                     llm_feedback := some llm.feedback_new } else x)
        else st.answers) := by
  unfold handle_question_dispute at h
  rcases qn? with _ | n
  · simp at h
  · simp only at h
    split at h
    · simp at h
    · split at h
      · simp at h
      · rename_i question hq
        split at h
        · simp at h
        · rename_i answer ha
          split at h
          · simp at h
          · rename_i hov
            split at h
            · simp at h
            · rename_i hrg
              split at h
              · simp at h
              · rename_i llm hllm
                rcases h with ⟨⟩
                refine ⟨n, question, answer, llm, rfl, hq, ha, ?_, ?_, hllm,
                  rfl, rfl, rfl, rfl⟩
                · simpa using hov
                · simpa using hrg

/-- Inversion of a successful `_handle_overall_dispute` run: no question
`Regrade` existed, no overall dispute existed, the adjudicator succeeded,
the update loop succeeded, one `SubmissionRegrade` row was appended and
the question-regrade table is untouched. -/
theorem handle_overall_dispute_ok (pyStr : JVal → Text)
    (reply? : Option ODisputeParsed) (questions : List Question)
    (sub_id : Nat) (arg : Text) (st st' : PracticeState)
    (resp : ODisputeResponse)
    (h : handle_overall_dispute pyStr reply? questions sub_id arg st
          = .ok (st', resp)) :
    ∃ llm answers',
      (st.regrades.filter (fun r => st.answers.any (fun a =>
        a.id = r.answer_id && a.submission_id = sub_id))).length = 0 ∧
      st.subRegrades.any (fun r => r.submission_id = sub_id) = false ∧
      adjudicate_dispute_overall pyStr reply? = .ok llm ∧
      resp.decision = llm.decision ∧
      (if llm.decision = updateT then
          llm.question_updates.foldlM (applyQUpdate questions sub_id) st.answers
        else .ok st.answers) = .ok answers' ∧
      st'.answers = answers' ∧
      st'.regrades = st.regrades ∧
      st'.subRegrades = st.subRegrades ++
        [⟨sub_id, arg, llm.decision, llm.overall_explanation,
          pyInt (computeSubmissionTotal st.answers sub_id),
          pyInt (computeSubmissionTotal answers' sub_id)⟩] := by
  unfold handle_overall_dispute at h
  split at h
  · simp at h
  · rename_i hcnt
    split at h
    · simp at h
    · rename_i hov
      split at h
      · simp at h
      · rename_i llm hllm
        dsimp only at h
        split at h
        · simp at h
        · rename_i answers' happ
          rcases h with ⟨⟩
          refine ⟨llm, answers', ?_, ?_, hllm, rfl, happ, rfl, rfl, rfl⟩
          · omega
          · simpa using hov

/-! ## Claim theorems. -/

/-- Claim C3: keep-consistency.  For every dispute adjudication whose
decision is `keep`, the stored score is unchanged regardless of the
numbers in the oracle's raw reply: `adjudicate_dispute_question` forces
`question_score_new = question_score_old`, `adjudicate_dispute_overall`
forces `total_new = total_old` with an empty `question_updates` list, and
consequently both practice dispute handlers leave every answer row
untouched when the decision is `keep`. -/
theorem c3_keep_consistency :
    (∀ pyStr original_score parsed? r,
        adjudicate_dispute_question pyStr original_score parsed? = .ok r →
        r.decision = keepT → r.question_score_new = r.question_score_old) ∧
    (∀ pyStr parsed? r,
        adjudicate_dispute_overall pyStr parsed? = .ok r →
        r.decision = keepT → r.total_new = r.total_old ∧ r.question_updates = []) ∧
    (∀ pyStr reply? questions sub_id qn? arg now st st' resp,
        handle_question_dispute pyStr reply? questions sub_id qn? arg now st
          = .ok (st', resp) →
        resp.decision = keepT → st'.answers = st.answers) ∧
    (∀ pyStr reply? questions sub_id arg st st' resp,
        handle_overall_dispute pyStr reply? questions sub_id arg st
          = .ok (st', resp) →
        resp.decision = keepT → st'.answers = st.answers) := by
  refine ⟨?_, ?_, ?_, ?_⟩
  · intro pyStr s p r h hk
    exact (adjudicate_q_ok_facts pyStr s p r h).2 hk
  · intro pyStr p r h hk
    exact (adjudicate_o_ok_facts pyStr p r h).2 hk
  · intro pyStr reply? questions sub_id qn? arg now st st' resp h hk
    obtain ⟨n, question, answer, llm, _, _, _, _, _, _, hdec, _, _, hans⟩ :=
      handle_question_dispute_ok pyStr reply? questions sub_id qn? arg now st st' resp h
    rw [hdec] at hk
    rw [hans, if_neg (by rw [hk]; decide)]
  · intro pyStr reply? questions sub_id arg st st' resp h hk
    obtain ⟨llm, answers', _, _, _, hdec, happ, hansEq, _, _⟩ :=
      handle_overall_dispute_ok pyStr reply? questions sub_id arg st st' resp h
    rw [hdec] at hk
    rw [if_neg (by rw [hk]; decide)] at happ
    rw [hansEq]
    exact (Except.ok.inj happ).symm

/-- Witness for C3: a concrete `keep` reply whose raw `question_score_new`
claims 9 while the old score is 7; the adjudicated result carries 7 for
both. -/
theorem c3_keep_consistency_witness :
    adjudicate_dispute_question (fun _ => keepT) 7
      (some ⟨some .jnull, some (.jnum 7), some (.jnum 9), some (.jstr []), none, none⟩)
      = .ok ⟨keepT, 7, 7, .jstr [], none⟩ ∧
    (⟨keepT, 7, 7, .jstr [], none⟩ : QDisputeResult).question_score_new
      = (⟨keepT, 7, 7, .jstr [], none⟩ : QDisputeResult).question_score_old :=
  ⟨by rfl,
    c3_keep_consistency.1 (fun _ => keepT) 7
      (some ⟨some .jnull, some (.jnum 7), some (.jnum 9), some (.jstr []), none, none⟩)
      ⟨keepT, 7, 7, .jstr [], none⟩ (by rfl) (by decide)⟩

/-- Claim C10: both adjudication functions normalise the oracle decision
(strip, lower-case, and replace anything other than `keep`/`update` by
`keep`), so every reply that reaches the caller carries a decision that is
exactly `keep` or `update`; an unrecognised raw decision yields `keep`
with the old score forced, and a handler that sees a non-`update`
decision leaves every answer row unchanged. -/
theorem c10_decision_normalisation :
    (∀ pyStr original_score parsed? r,
        adjudicate_dispute_question pyStr original_score parsed? = .ok r →
        (r.decision = keepT ∨ r.decision = updateT)) ∧
    (∀ pyStr parsed? r,
        adjudicate_dispute_overall pyStr parsed? = .ok r →
        (r.decision = keepT ∨ r.decision = updateT)) ∧
    (∀ pyStr original_score parsed r dv,
        parsed.decision = some dv →
        adjudicate_dispute_question pyStr original_score (some parsed) = .ok r →
        pyLower (pystrip (pyStr dv)) ≠ keepT →
        pyLower (pystrip (pyStr dv)) ≠ updateT →
        r.decision = keepT ∧ r.question_score_new = r.question_score_old) ∧
    (∀ pyStr parsed r dv,
        parsed.decision = some dv →
        adjudicate_dispute_overall pyStr (some parsed) = .ok r →
        pyLower (pystrip (pyStr dv)) ≠ keepT →
        pyLower (pystrip (pyStr dv)) ≠ updateT →
        r.decision = keepT ∧ r.total_new = r.total_old ∧ r.question_updates = []) ∧
    (∀ pyStr reply? questions sub_id qn? arg now st st' resp,
        handle_question_dispute pyStr reply? questions sub_id qn? arg now st
          = .ok (st', resp) →
        resp.decision ≠ updateT → st'.answers = st.answers) ∧
    (∀ pyStr reply? questions sub_id arg st st' resp,
        handle_overall_dispute pyStr reply? questions sub_id arg st
          = .ok (st', resp) →
        resp.decision ≠ updateT → st'.answers = st.answers) := by
  refine ⟨?_, ?_, ?_, ?_, ?_, ?_⟩
  · intro pyStr s p r h
    exact (adjudicate_q_ok_facts pyStr s p r h).1
  · intro pyStr p r h
    exact (adjudicate_o_ok_facts pyStr p r h).1
  · intro pyStr s parsed r dv hdv h hk hu
    unfold adjudicate_dispute_question at h
    simp only at h
    split at h
    · rename_i decV newV fb heqd heqn heqf
      split at h
      · rcases h with ⟨⟩
        rw [hdv] at heqd
        cases Option.some.inj heqd
        have hc : ¬(pyLower (pystrip (pyStr dv)) = keepT ∨
            pyLower (pystrip (pyStr dv)) = updateT) := fun hor => hor.elim hk hu
        constructor
        · dsimp only
          rw [if_neg hc]
        · dsimp only
          rw [if_neg hc, if_pos rfl]
      · simp at h
    · simp at h
  · intro pyStr parsed r dv hdv h hk hu
    unfold adjudicate_dispute_overall at h
    simp only at h
    split at h
    · rename_i decV told tnew qups expl heqd heq2 heq3 heq4 heq5
      rw [hdv] at heqd
      cases Option.some.inj heqd
      have hc : ¬(pyLower (pystrip (pyStr dv)) = keepT ∨
          pyLower (pystrip (pyStr dv)) = updateT) := fun hor => hor.elim hk hu
      rw [if_neg hc] at h
      rw [if_pos rfl] at h
      rcases h with ⟨⟩
      exact ⟨rfl, rfl, rfl⟩
    · simp at h
  · intro pyStr reply? questions sub_id qn? arg now st st' resp h hnu
    obtain ⟨n, question, answer, llm, _, _, _, _, _, _, hdec, _, _, hans⟩ :=
      handle_question_dispute_ok pyStr reply? questions sub_id qn? arg now st st' resp h
    rw [hdec] at hnu
    rw [hans, if_neg hnu]
  · intro pyStr reply? questions sub_id arg st st' resp h hnu
    obtain ⟨llm, answers', _, _, _, hdec, happ, hansEq, _, _⟩ :=
      handle_overall_dispute_ok pyStr reply? questions sub_id arg st st' resp h
    rw [hdec] at hnu
    rw [if_neg hnu] at happ
    rw [hansEq]
    exact (Except.ok.inj happ).symm

/-- Witness for C10: the oracle renders the decision as `MAYBE`; the
returned decision is `keep` and the score is the old score. -/
theorem c10_decision_normalisation_witness :
    (⟨some .jnull, some (.jnum 4), some (.jnum 9), some (.jstr []), none, none⟩
        : QDisputeParsed).decision = some .jnull ∧
    adjudicate_dispute_question (fun _ => ['M', 'A', 'Y', 'B', 'E']) 4
      (some ⟨some .jnull, some (.jnum 4), some (.jnum 9), some (.jstr []), none, none⟩)
      = .ok ⟨keepT, 4, 4, .jstr [], none⟩ ∧
    pyLower (pystrip ((fun _ => ['M', 'A', 'Y', 'B', 'E']) JVal.jnull)) ≠ keepT ∧
    (⟨keepT, 4, 4, .jstr [], none⟩ : QDisputeResult).decision = keepT ∧
    (⟨keepT, 4, 4, .jstr [], none⟩ : QDisputeResult).question_score_new
      = (⟨keepT, 4, 4, .jstr [], none⟩ : QDisputeResult).question_score_old :=
  ⟨rfl, by rfl, by decide,
    (c10_decision_normalisation.2.2.1 (fun _ => ['M', 'A', 'Y', 'B', 'E']) 4
      ⟨some .jnull, some (.jnum 4), some (.jnum 9), some (.jstr []), none, none⟩
      ⟨keepT, 4, 4, .jstr [], none⟩ .jnull rfl (by rfl) (by decide) (by decide)).1,
    (c10_decision_normalisation.2.2.1 (fun _ => ['M', 'A', 'Y', 'B', 'E']) 4
      ⟨some .jnull, some (.jnum 4), some (.jnum 9), some (.jstr []), none, none⟩
      ⟨keepT, 4, 4, .jstr [], none⟩ .jnull rfl (by rfl) (by decide) (by decide)).2⟩

/-- Claim C9: resolving an assigned-exam dispute mutates only the dispute
row (status, decision, response, resolver, timestamp) and never changes
any answer row, even when the decision is `approved`; the identifying
fields of the dispute are preserved. -/
theorem c9_resolve_dispute_frame :
    ∀ user_type instructor_id decision response now dispute? exam_instructor
      (answers : List Answer) d' answers',
      resolve_dispute user_type instructor_id decision response now dispute?
          exam_instructor answers = .ok (d', answers') →
      answers' = answers ∧
      d'.status = "resolved" ∧
      ∃ dispute, dispute? = some dispute ∧
        dispute.status = "pending" ∧
        d'.id = dispute.id ∧
        d'.submission_id = dispute.submission_id ∧
        d'.question_id = dispute.question_id ∧
        d'.student_argument = dispute.student_argument ∧
        d'.created_at = dispute.created_at ∧
        d'.instructor_decision = some decision ∧
        d'.instructor_response = some response ∧
        d'.resolved_at = some now ∧
        d'.resolved_by = some instructor_id := by
  intro user_type instructor_id decision response now dispute? exam_instructor
    answers d' answers' h
  unfold resolve_dispute at h
  split at h
  · simp at h
  · split at h
    · simp at h
    · rcases dispute? with _ | dispute
      · simp at h
      · simp only at h
        split at h
        · simp at h
        · rename_i hpend
          split at h
          · simp at h
          · rcases h with ⟨⟩
            refine ⟨rfl, rfl, dispute, rfl, ?_, rfl, rfl, rfl, rfl, rfl,
              rfl, rfl, rfl, rfl⟩
            simpa using hpend

/-- Witness for C9: an `approved` decision on a question-scoped dispute
resolves the row and leaves the answers list untouched. -/
theorem c9_resolve_dispute_frame_witness :
    resolve_dispute "instructor" 5 "approved" [] 100
        (some ⟨1, 2, some 3, [], "pending", none, none, none, none, 0⟩) 5
        [⟨10, 2, 3, [], some 4, none, none, false, none⟩]
      = .ok (⟨1, 2, some 3, [], "resolved", some "approved", some [],
          some 100, some 5, 0⟩,
        [⟨10, 2, 3, [], some 4, none, none, false, none⟩]) ∧
    [(⟨10, 2, 3, [], some 4, none, none, false, none⟩ : Answer)]
      = [⟨10, 2, 3, [], some 4, none, none, false, none⟩] :=
  ⟨by rfl,
    (c9_resolve_dispute_frame "instructor" 5 "approved" [] 100
      (some ⟨1, 2, some 3, [], "pending", none, none, none, none, 0⟩) 5
      [⟨10, 2, 3, [], some 4, none, none, false, none⟩]
      ⟨1, 2, some 3, [], "resolved", some "approved", some [], some 100, some 5, 0⟩
      [⟨10, 2, 3, [], some 4, none, none, false, none⟩] (by rfl)).1⟩

/-! ## List helper lemmas for the `submit_response` claims. -/

/-- `find?` commutes with a `map` that does not change the tested key. -/
theorem find?_map_pred {α : Type} (p : α → Bool) (g : α → α) (l : List α)
    (hpg : ∀ x, p (g x) = p x) :
    List.find? p (l.map g) = (List.find? p l).map g := by
  induction l with
  | nil => rfl
  | cons x xs ih =>
    by_cases hx : p x = true
    · simp [List.find?_cons, hpg, hx]
    · simp only [Bool.not_eq_true] at hx
      simp [List.find?_cons, hpg, hx, ih]

/-- `find?` skips a prefix in which nothing matches. -/
theorem find?_append_right {α : Type} (p : α → Bool) (l₁ l₂ : List α)
    (h : List.find? p l₁ = none) :
    List.find? p (l₁ ++ l₂) = List.find? p l₂ := by
  induction l₁ with
  | nil => rfl
  | cons x xs ih =>
    cases hpx : p x with
    | true =>
      rw [List.find?_cons_of_pos _ hpx] at h
      exact absurd h (by simp)
    | false =>
      rw [List.find?_cons_of_neg _ (by simp [hpx])] at h
      rw [List.cons_append, List.find?_cons_of_neg _ (by simp [hpx])]
      exact ih h

/-- A member whose update key does not match survives `updateSubmission`
unchanged. -/
theorem mem_updateSubmission {subs : List Submission} {s : Submission}
    (hs : s ∈ subs) (sid : Nat) (f : Submission → Submission)
    (hne : s.id ≠ sid) : s ∈ updateSubmission subs sid f := by
  unfold updateSubmission
  have hfix : (fun x => if x.id = sid then f x else x) s = s := by
    show (if s.id = sid then f s else s) = s
    rw [if_neg hne]
  exact hfix ▸ List.mem_map_of_mem _ hs

/-- Updating a single answer row (identified by a key that occurs once and
whose submission is not `t`, with the update preserving the submission
id) does not change the set of rows of submission `t`. -/
theorem filter_sub_map_update (l : List Answer) (a : Answer)
    (upd : Answer → Answer) (hmem : a ∈ l)
    (hids : (l.map (fun x => x.id)).Nodup) (t : Nat)
    (hat : ¬a.submission_id = t)
    (hupd : (upd a).submission_id = a.submission_id) :
    (l.map (fun x => if x.id = a.id then upd x else x)).filter
        (fun x => x.submission_id = t)
      = l.filter (fun x => x.submission_id = t) := by
  induction l with
  | nil => simp at hmem
  | cons x xs ih =>
    simp only [List.map_cons, List.nodup_cons] at hids
    rcases List.mem_cons.mp hmem with rfl | hmem2
    · have hxs : ∀ y ∈ xs, ¬(y.id = a.id) := by
        intro y hy he
        exact hids.1 (he ▸ List.mem_map_of_mem (fun z => z.id) hy)
      have hmap : xs.map (fun x => if x.id = a.id then upd x else x) = xs := by
        conv_rhs => rw [← List.map_id xs]
        apply List.map_congr_left
        intro y hy
        show (if y.id = a.id then upd y else y) = y
        rw [if_neg (hxs y hy)]
      simp only [List.map_cons, if_pos rfl, hmap, List.filter_cons]
      rw [if_neg (by simpa [hupd] using hat), if_neg (by simpa using hat)]
    · have hxa : ¬(x.id = a.id) := by
        intro he
        exact hids.1 (he ▸ List.mem_map_of_mem (fun z => z.id) hmem2)
      simp only [List.map_cons, if_neg hxa, List.filter_cons]
      rw [ih hmem2 hids.2]

/-- One `pickBetter` step returns either the accumulator or the new row. -/
theorem pickBetter_cases (acc : Option Submission) (x y : Submission)
    (h : pickBetter acc x = some y) : acc = some y ∨ y = x := by
  unfold pickBetter at h
  rcases acc with _ | b
  · exact Or.inr (Option.some.inj h).symm
  · rcases hb : b.started_at with _ | bs <;> rcases hx : x.started_at with _ | xs2 <;>
      simp only [hb, hx] at h
    · exact Or.inl h
    · exact Or.inr (Option.some.inj h).symm
    · exact Or.inl h
    · split at h
      · exact Or.inr (Option.some.inj h).symm
      · exact Or.inl h

/-- The value of a `pickBetter` fold is the accumulator or a list member. -/
theorem foldl_pickBetter_mem (l : List Submission) (acc : Option Submission)
    (sub : Submission) (h : l.foldl pickBetter acc = some sub) :
    acc = some sub ∨ sub ∈ l := by
  induction l generalizing acc with
  | nil => exact Or.inl h
  | cons x xs ih =>
    simp only [List.foldl_cons] at h
    rcases ih (pickBetter acc x) h with hstep | hmem
    · rcases pickBetter_cases acc x sub hstep with hacc | hx
      · exact Or.inl hacc
      · exact Or.inr (List.mem_cons.mpr (Or.inl hx))
    · exact Or.inr (List.mem_cons.mpr (Or.inr hmem))

/-- `pickLatestInProgress` returns a member of the table that is
in progress and belongs to the requested (exam, student). -/
theorem pickLatest_mem (subs : List Submission) (e st : Nat)
    (sub : Submission) (h : pickLatestInProgress subs e st = some sub) :
    sub ∈ subs ∧ sub.exam_id = e ∧ sub.student_id = st ∧
      sub.submitted_at = none := by
  unfold pickLatestInProgress at h
  rcases foldl_pickBetter_mem _ _ _ h with hacc | hmem
  · simp at hacc
  · have := List.mem_filter.mp hmem
    rcases this with ⟨hm, hp⟩
    simp only [Bool.and_eq_true, decide_eq_true_eq] at hp
    exact ⟨hm, hp.1.1, hp.1.2, hp.2⟩

/-- What `resolveTargetSubmission` can do: answers untouched, and either a
fresh in-progress submission is appended, or an existing in-progress
submission is reused (with at most its `started_at` reset). -/
theorem resolveTarget_spec (now e st : Nat) (db db1 : Db) (sid : Nat)
    (h : resolveTargetSubmission now e st db = (db1, sid)) :
    db1.answers = db.answers ∧ db1.next_answer_id = db.next_answer_id ∧
    ((pickLatestInProgress db.submissions e st = none ∧
      sid = db.next_submission_id ∧
      db1.submissions = db.submissions ++
        [⟨db.next_submission_id, e, st, some now, none⟩]) ∨
     (∃ sub, pickLatestInProgress db.submissions e st = some sub ∧
       sid = sub.id ∧
       (db1.submissions = updateSubmission db.submissions sub.id
          (fun s => { s with started_at := some now }) ∨
        db1.submissions = db.submissions))) := by
  unfold resolveTargetSubmission at h
  split at h
  · rename_i hpick
    rcases h with ⟨⟩
    exact ⟨rfl, rfl, Or.inl ⟨hpick, rfl, rfl⟩⟩
  · rename_i sub hpick
    split at h
    · rcases h with ⟨⟩
      exact ⟨rfl, rfl, Or.inr ⟨sub, hpick, rfl, Or.inl rfl⟩⟩
    · rcases h with ⟨⟩
      exact ⟨rfl, rfl, Or.inr ⟨sub, hpick, rfl, Or.inr rfl⟩⟩

/-- Inversion of a successful `submit_response` run: the grade parsed and
coerced, a target submission was resolved, the answer was upserted for
(target, question), and the completion check either marked the target
submitted or left the submissions as resolved. -/
theorem submit_response_ok_spec (now e q st : Nat) (questions : List Nat)
    (text : Text) (grade? : Except HErr GradeData) (db db' : Db)
    (res : GradeResult)
    (h : submit_response now e q st questions text grade? db = .ok (db', res)) :
    ∃ gd sc db1 sid,
      grade? = .ok gd ∧
      pyFloat ((gd.total_score).getD (.jnum 0)) = some sc ∧
      resolveTargetSubmission now e st db = (db1, sid) ∧
      ∃ answers2,
        ((∃ a, db1.answers.find? (fun x =>
              x.submission_id = sid && x.question_id = q) = some a ∧
            answers2 = db1.answers.map (fun x => if x.id = a.id then
              { x with student_answer := text, llm_score := some sc,
                       llm_feedback := some ((gd.feedback).getD (.jstr [])),
                       graded_at := some now } else x)) ∨
         (db1.answers.find? (fun x =>
              x.submission_id = sid && x.question_id = q) = none ∧
            answers2 = db1.answers ++ [⟨db1.next_answer_id, sid, q, text, some sc,
              some ((gd.feedback).getD (.jstr [])), some now, false, none⟩])) ∧
        db'.answers = answers2 ∧
        db'.submissions =
          (if (answers2.filter (fun a => a.submission_id = sid)).length
                ≥ questions.length ∧
              ((db1.submissions.find? (fun s => s.id = sid)).all
                (fun s => s.submitted_at = none)) = true then
            updateSubmission db1.submissions sid
              (fun s => { s with submitted_at := some now })
          else db1.submissions) ∧
        res = ⟨q, (gd.total_score).getD (.jnum 0), (gd.feedback).getD (.jstr [])⟩ := by
  unfold submit_response at h
  split at h
  · simp at h
  · rcases grade? with e0 | gd
    · simp at h
    · simp only at h
      split at h
      · simp at h
      · rename_i sc hsc
        rcases hr : resolveTargetSubmission now e st db with ⟨db1, sid⟩
        rw [hr] at h
        dsimp only at h
        cases hfind : db1.answers.find? (fun x =>
            x.submission_id = sid && x.question_id = q) with
        | none =>
          rw [hfind] at h
          dsimp only at h
          split at h
          · rename_i hcond
            rcases h with ⟨⟩
            refine ⟨gd, sc, db1, sid, rfl, hsc, rfl, _, Or.inr ⟨hfind, rfl⟩,
              rfl, ?_, rfl⟩
            rw [if_pos (by simpa using hcond)]
          · rename_i hcond
            rcases h with ⟨⟩
            refine ⟨gd, sc, db1, sid, rfl, hsc, rfl, _, Or.inr ⟨hfind, rfl⟩,
              rfl, ?_, rfl⟩
            rw [if_neg (by simpa using hcond)]
        | some a =>
          rw [hfind] at h
          dsimp only at h
          split at h
          · rename_i hcond
            rcases h with ⟨⟩
            refine ⟨gd, sc, db1, sid, rfl, hsc, rfl, _, Or.inl ⟨a, hfind, rfl⟩,
              rfl, ?_, rfl⟩
            rw [if_pos (by simpa using hcond)]
          · rename_i hcond
            rcases h with ⟨⟩
            refine ⟨gd, sc, db1, sid, rfl, hsc, rfl, _, Or.inl ⟨a, hfind, rfl⟩,
              rfl, ?_, rfl⟩
            rw [if_neg (by simpa using hcond)]

/-- Two members of a list with `Nodup` keys and equal keys are equal. -/
theorem nodup_key_inj {α : Type} (key : α → Nat) (l : List α)
    (hn : (l.map key).Nodup) {a b : α} (ha : a ∈ l) (hb : b ∈ l)
    (hab : key a = key b) : a = b := by
  induction l with
  | nil => simp at ha
  | cons x xs ih =>
    simp only [List.map_cons, List.nodup_cons] at hn
    rcases List.mem_cons.mp ha with rfl | ha2 <;>
      rcases List.mem_cons.mp hb with rfl | hb2
    · rfl
    · exact absurd (hab ▸ List.mem_map_of_mem key hb2) hn.1
    · exact absurd (hab ▸ List.mem_map_of_mem key ha2) (hab ▸ hn.1)
    · exact ih hn.2 ha2 hb2

/-- Claim C1, counterexample to the claim as stated: in a database whose
only attempt for (exam 1, student 2) is already submitted
(`submitted_at = some 5`), submitting a response does not fail — it
creates a fresh in-progress attempt (id 2), stores the answer there, and
returns the grade. -/
theorem c1_counterexample :
    submit_response 50 1 10 2 [10] [] (.ok ⟨some (.jnum 7), some (.jstr [])⟩)
        ⟨[⟨1, 1, 2, some 0, some 5⟩], [], 2, 1⟩
      = .ok (⟨[⟨1, 1, 2, some 0, some 5⟩, ⟨2, 1, 2, some 50, some 50⟩],
          [⟨1, 2, 10, [], some 7, some (.jstr []), some 50, false, none⟩], 3, 2⟩,
        ⟨10, .jnum 7, .jstr []⟩) := by
  rfl

/-- Claim C1, amended: `submit_response` never creates or updates an
Answer row for a submitted attempt — writes target the latest in-progress
attempt (a freshly created one when none exists), so every submitted
attempt keeps its rows and its Answer set unchanged.  (The claim's
"fails" part is refuted by `c1_counterexample`.) -/
theorem c1_submitted_attempt_frame :
    ∀ now e q st questions text grade? (db db' : Db) res (s : Submission),
      (db.submissions.map (fun x => x.id)).Nodup →
      (∀ x ∈ db.submissions, x.id ≠ db.next_submission_id) →
      (db.answers.map (fun x => x.id)).Nodup →
      s ∈ db.submissions →
      s.submitted_at ≠ none →
      submit_response now e q st questions text grade? db = .ok (db', res) →
      s ∈ db'.submissions ∧
      db'.answers.filter (fun a => a.submission_id = s.id)
        = db.answers.filter (fun a => a.submission_id = s.id) := by
  intro now e q st questions text grade? db db' res s hnodupS hfresh hnodupA
    hs hsub h
  obtain ⟨gd, sc, db1, sid, _, _, hres, answers2, hup, hA', hS', _⟩ :=
    submit_response_ok_spec now e q st questions text grade? db db' res h
  obtain ⟨hA1, _, hcase⟩ := resolveTarget_spec now e st db db1 sid hres
  have hsid : s.id ≠ sid := by
    rcases hcase with ⟨_, hsid, _⟩ | ⟨sub, hpick, hsid, _⟩
    · exact hsid ▸ hfresh s hs
    · obtain ⟨hsubMem, _, _, hsubNone⟩ :=
        pickLatest_mem db.submissions e st sub hpick
      intro he
      have : s = sub := nodup_key_inj (fun x => x.id) db.submissions hnodupS
        hs hsubMem (he.trans hsid)
      exact hsub (this ▸ hsubNone)
  have hs1 : s ∈ db1.submissions := by
    rcases hcase with ⟨_, _, hsubs⟩ | ⟨sub, _, hsid2, hsubs | hsubs⟩
    · rw [hsubs]; exact List.mem_append_left _ hs
    · rw [hsubs]
      exact mem_updateSubmission hs sub.id _ (hsid2 ▸ hsid)
    · rw [hsubs]; exact hs
  constructor
  · rw [hS']
    split
    · exact mem_updateSubmission hs1 sid _ hsid
    · exact hs1
  · rw [hA']
    rcases hup with ⟨a, hfind, hans2⟩ | ⟨_, hans2⟩
    · rw [hA1] at hfind
      have hamem : a ∈ db.answers := List.mem_of_find?_eq_some hfind
      have hapred := List.find?_some hfind
      simp only [Bool.and_eq_true, decide_eq_true_eq] at hapred
      rw [hans2, hA1]
      exact filter_sub_map_update db.answers a _ hamem hnodupA s.id
        (by rw [hapred.1]; exact fun he => hsid he.symm) rfl
    · rw [hans2, hA1, List.filter_append]
      have : List.filter (fun a => decide (a.submission_id = s.id))
          [(⟨db1.next_answer_id, sid, q, text, some sc,
            some ((gd.feedback).getD (.jstr [])), some now, false, none⟩ : Answer)]
          = [] := by
        simp only [List.filter_cons, List.filter_nil]
        rw [if_neg (by simp; exact fun he => hsid he.symm)]
      rw [this, List.append_nil]

/-- Witness for the amended C1: the concrete database of
`c1_counterexample`; the submitted attempt (id 1) survives with an
unchanged (empty) answer set. -/
theorem c1_submitted_attempt_frame_witness :
    submit_response 50 1 10 2 [10] [] (.ok ⟨some (.jnum 7), some (.jstr [])⟩)
        ⟨[⟨1, 1, 2, some 0, some 5⟩], [], 2, 1⟩
      = .ok (⟨[⟨1, 1, 2, some 0, some 5⟩, ⟨2, 1, 2, some 50, some 50⟩],
          [⟨1, 2, 10, [], some 7, some (.jstr []), some 50, false, none⟩], 3, 2⟩,
        ⟨10, .jnum 7, .jstr []⟩) ∧
    (⟨1, 1, 2, some 0, some 5⟩ : Submission) ∈
      [(⟨1, 1, 2, some 0, some 5⟩ : Submission), ⟨2, 1, 2, some 50, some 50⟩] ∧
    List.filter (fun a => a.submission_id = 1)
        [(⟨1, 2, 10, [], some 7, some (.jstr []), some 50, false, none⟩ : Answer)]
      = List.filter (fun a => a.submission_id = 1) ([] : List Answer) :=
  ⟨by rfl,
    (c1_submitted_attempt_frame 50 1 10 2 [10] [] (.ok ⟨some (.jnum 7), some (.jstr [])⟩)
      ⟨[⟨1, 1, 2, some 0, some 5⟩], [], 2, 1⟩
      ⟨[⟨1, 1, 2, some 0, some 5⟩, ⟨2, 1, 2, some 50, some 50⟩],
        [⟨1, 2, 10, [], some 7, some (.jstr []), some 50, false, none⟩], 3, 2⟩
      ⟨10, .jnum 7, .jstr []⟩ ⟨1, 1, 2, some 0, some 5⟩
      (by decide) (by decide) (by decide) (by decide) (by decide) (by rfl)).1,
    (c1_submitted_attempt_frame 50 1 10 2 [10] [] (.ok ⟨some (.jnum 7), some (.jstr [])⟩)
      ⟨[⟨1, 1, 2, some 0, some 5⟩], [], 2, 1⟩
      ⟨[⟨1, 1, 2, some 0, some 5⟩, ⟨2, 1, 2, some 50, some 50⟩],
        [⟨1, 2, 10, [], some 7, some (.jstr []), some 50, false, none⟩], 3, 2⟩
      ⟨10, .jnum 7, .jstr []⟩ ⟨1, 1, 2, some 0, some 5⟩
      (by decide) (by decide) (by decide) (by decide) (by decide) (by rfl)).2⟩

/-- With `Nodup` keys, `find?` by a member's key returns that member. -/
theorem find?_key_nodup {α : Type} (key : α → Nat) (l : List α)
    (hn : (l.map key).Nodup) (a : α) (ha : a ∈ l) :
    List.find? (fun x => key x = key a) l = some a := by
  induction l with
  | nil => simp at ha
  | cons x xs ih =>
    simp only [List.map_cons, List.nodup_cons] at hn
    by_cases hx : key x = key a
    · have hax : a = x := by
        rcases List.mem_cons.mp ha with rfl | ha2
        · rfl
        · exact absurd (hx ▸ List.mem_map_of_mem key ha2) hn.1
      rw [List.find?_cons_of_pos _ (by simpa using hx), hax]
    · have ha2 : a ∈ xs := by
        rcases List.mem_cons.mp ha with rfl | ha2
        · exact absurd rfl hx
        · exact ha2
      rw [List.find?_cons_of_neg _ (by simpa using hx)]
      exact ih hn.2 ha2

/-- `find?` by id through `updateSubmission`. -/
theorem find?_updateSubmission (subs : List Submission) (sid : Nat)
    (f : Submission → Submission) (hf : ∀ x, (f x).id = x.id)
    (t : Submission) (h : subs.find? (fun x => x.id = sid) = some t) :
    (updateSubmission subs sid f).find? (fun x => x.id = sid)
      = some (if t.id = sid then f t else t) := by
  unfold updateSubmission
  rw [find?_map_pred (fun x => decide (x.id = sid))
    (fun x => if x.id = sid then f x else x) subs ?hpg]
  · rw [h]
    rfl
  case hpg =>
    intro x
    by_cases hx : x.id = sid
    · simp [hx, hf]
    · simp [hx]

/-- Claim C6: automatic completion.  After a successful `submit_response`,
the target attempt is marked submitted (`submitted_at = now`) exactly when
its stored answer count reached the exam's question count; below the
count it remains in progress (`submitted_at = none`). -/
theorem c6_auto_completion :
    ∀ now e q st questions text grade? (db db' : Db) res,
      (db.submissions.map (fun x => x.id)).Nodup →
      (∀ x ∈ db.submissions, x.id ≠ db.next_submission_id) →
      submit_response now e q st questions text grade? db = .ok (db', res) →
      ∃ sid target,
        db'.submissions.find? (fun x => x.id = sid) = some target ∧
        ((db'.answers.filter (fun a => a.submission_id = sid)).length
            ≥ questions.length → target.submitted_at = some now) ∧
        ((db'.answers.filter (fun a => a.submission_id = sid)).length
            < questions.length → target.submitted_at = none) := by
  intro now e q st questions text grade? db db' res hnodupS hfresh h
  obtain ⟨gd, sc, db1, sid, _, _, hres, answers2, hup, hA', hS', _⟩ :=
    submit_response_ok_spec now e q st questions text grade? db db' res h
  obtain ⟨hA1, _, hcase⟩ := resolveTarget_spec now e st db db1 sid hres
  have hT : ∃ t0, db1.submissions.find? (fun x => x.id = sid) = some t0 ∧
      t0.submitted_at = none ∧ t0.id = sid := by
    rcases hcase with ⟨hpick, hsid, hsubs⟩ | ⟨sub, hpick, hsid, hsubs | hsubs⟩
    · refine ⟨⟨db.next_submission_id, e, st, some now, none⟩, ?_, rfl, hsid.symm⟩
      rw [hsubs, find?_append_right]
      · rw [List.find?_cons_of_pos _ (by simpa using hsid.symm)]
      · apply List.find?_eq_none.mpr
        intro x hx
        simpa [hsid] using hfresh x hx
    · obtain ⟨hsubMem, _, _, hsubNone⟩ :=
        pickLatest_mem db.submissions e st sub hpick
      subst hsid
      have hfound : db.submissions.find? (fun x => x.id = sub.id) = some sub :=
        find?_key_nodup (fun x => x.id) db.submissions hnodupS sub hsubMem
      refine ⟨{ sub with started_at := some now }, ?_, by simpa using hsubNone, rfl⟩
      rw [hsubs, find?_updateSubmission db.submissions sub.id
        (fun s => { s with started_at := some now }) (fun x => rfl) sub hfound,
        if_pos rfl]
    · obtain ⟨hsubMem, _, _, hsubNone⟩ :=
        pickLatest_mem db.submissions e st sub hpick
      subst hsid
      have hfound : db.submissions.find? (fun x => x.id = sub.id) = some sub :=
        find?_key_nodup (fun x => x.id) db.submissions hnodupS sub hsubMem
      exact ⟨sub, hsubs ▸ hfound, hsubNone, rfl⟩
  obtain ⟨t0, ht0, ht0none, ht0id⟩ := hT
  split at hS'
  · rename_i hcond
    refine ⟨sid, { t0 with submitted_at := some now }, ?_, fun _ => rfl, ?_⟩
    · rw [hS', find?_updateSubmission db1.submissions sid
        (fun s => { s with submitted_at := some now }) (fun x => rfl) t0 ht0,
        if_pos ht0id]
    · intro hlt
      rw [hA'] at hlt
      exact absurd hcond.1 (by omega)
  · rename_i hcond
    refine ⟨sid, t0, hS' ▸ ht0, ?_, fun _ => ht0none⟩
    intro hge
    rw [hA'] at hge
    exact absurd ⟨hge, by rw [ht0]; simpa [Option.all] using ht0none⟩ hcond

/-- Witness for C6: an exam with questions 10 and 11 whose attempt already
stores an answer to 11; submitting the answer to 10 reaches 2 of 2 and
auto-submits the attempt at `now = 50`. -/
theorem c6_auto_completion_witness :
    submit_response 50 1 10 2 [10, 11] [] (.ok ⟨some (.jnum 7), some (.jstr [])⟩)
        ⟨[⟨1, 1, 2, some 0, none⟩],
          [⟨1, 1, 11, [], some 9, some (.jstr []), some 0, false, none⟩], 2, 2⟩
      = .ok (⟨[⟨1, 1, 2, some 0, some 50⟩],
          [⟨1, 1, 11, [], some 9, some (.jstr []), some 0, false, none⟩,
           ⟨2, 1, 10, [], some 7, some (.jstr []), some 50, false, none⟩], 2, 3⟩,
        ⟨10, .jnum 7, .jstr []⟩) ∧
    (∃ sid target,
      (⟨[⟨1, 1, 2, some 0, some 50⟩],
          [⟨1, 1, 11, [], some 9, some (.jstr []), some 0, false, none⟩,
           ⟨2, 1, 10, [], some 7, some (.jstr []), some 50, false, none⟩], 2, 3⟩
        : Db).submissions.find? (fun x => x.id = sid) = some target ∧
      (((⟨[⟨1, 1, 2, some 0, some 50⟩],
          [⟨1, 1, 11, [], some 9, some (.jstr []), some 0, false, none⟩,
           ⟨2, 1, 10, [], some 7, some (.jstr []), some 50, false, none⟩], 2, 3⟩
        : Db).answers.filter (fun a => a.submission_id = sid)).length
          ≥ ([10, 11] : List Nat).length → target.submitted_at = some 50) ∧
      (((⟨[⟨1, 1, 2, some 0, some 50⟩],
          [⟨1, 1, 11, [], some 9, some (.jstr []), some 0, false, none⟩,
           ⟨2, 1, 10, [], some 7, some (.jstr []), some 50, false, none⟩], 2, 3⟩
        : Db).answers.filter (fun a => a.submission_id = sid)).length
          < ([10, 11] : List Nat).length → target.submitted_at = none)) :=
  ⟨by rfl,
    c6_auto_completion 50 1 10 2 [10, 11] [] (.ok ⟨some (.jnum 7), some (.jstr [])⟩)
      ⟨[⟨1, 1, 2, some 0, none⟩],
        [⟨1, 1, 11, [], some 9, some (.jstr []), some 0, false, none⟩], 2, 2⟩
      ⟨[⟨1, 1, 2, some 0, some 50⟩],
        [⟨1, 1, 11, [], some 9, some (.jstr []), some 0, false, none⟩,
         ⟨2, 1, 10, [], some 7, some (.jstr []), some 50, false, none⟩], 2, 3⟩
      ⟨10, .jnum 7, .jstr []⟩ (by decide) (by decide) (by rfl)⟩

/-- Claim C5, counterexample to the claim as stated: a grading reply that
parses to JSON but has no `total_score` key is accepted — the answer is
stored with the default score 0.0 and the request succeeds, instead of
failing with an oracle-malformed error. -/
theorem c5_counterexample :
    submit_response 50 1 10 2 [10] [] (.ok ⟨none, none⟩) ⟨[], [], 1, 1⟩
      = .ok (⟨[⟨1, 1, 2, some 50, some 50⟩],
          [⟨1, 1, 10, [], some 0, some (.jstr []), some 50, false, none⟩], 2, 2⟩,
        ⟨10, .jnum 0, .jstr []⟩) := by
  rfl

/-- Claim C5, amended: only an unparseable oracle reply (extraction
failure after all repair passes) makes grading fail, and then nothing is
written; a reply that parses but lacks `total_score` is silently accepted
with `float(grade_data.get("total_score", 0.0)) = 0.0` stored as the
answer's score. -/
theorem c5_missing_total_score_default :
    (∀ now e q st questions text (gd : GradeData) (db db' : Db) res,
        gd.total_score = none →
        submit_response now e q st questions text (.ok gd) db = .ok (db', res) →
        res.total_score = .jnum 0 ∧
        ∃ a ∈ db'.answers, a.question_id = q ∧ a.llm_score = some 0) ∧
    (∀ now e q st questions text err (db : Db),
        q ∈ questions →
        submit_response now e q st questions text (.error err) db
          = .error err) := by
  constructor
  · intro now e q st questions text gd db db' res hmiss h
    obtain ⟨gd2, sc, db1, sid, hgd, hsc, hres, answers2, hup, hA', hS', hres2⟩ :=
      submit_response_ok_spec now e q st questions text (.ok gd) db db' res h
    cases Except.ok.inj hgd
    rw [hmiss] at hsc hres2
    have hsc0 : sc = 0 := by
      simpa [Option.getD, pyFloat] using hsc.symm
    subst hsc0
    constructor
    · rw [hres2]
      rfl
    · rw [hA']
      rcases hup with ⟨a, hfind, hans2⟩ | ⟨hfind, hans2⟩
      · have hapred := List.find?_some hfind
        simp only [Bool.and_eq_true, decide_eq_true_eq] at hapred
        have hamem := List.mem_of_find?_eq_some hfind
        refine ⟨{ a with student_answer := text, llm_score := some 0,
                         llm_feedback := some ((gd.feedback).getD (.jstr [])),
                         graded_at := some now },
          ?_, by simpa using hapred.2, rfl⟩
        rw [hans2]
        have hga : (fun x => if x.id = a.id then
              { x with student_answer := text, llm_score := some 0,
                       llm_feedback := some ((gd.feedback).getD (.jstr [])),
                       graded_at := some now } else x) a
            = { a with student_answer := text, llm_score := some 0,
                       llm_feedback := some ((gd.feedback).getD (.jstr [])),
                       graded_at := some now } := by
          simp only [if_pos]
        exact hga ▸ List.mem_map_of_mem _ hamem
      · refine ⟨⟨db1.next_answer_id, sid, q, text, some 0,
          some ((gd.feedback).getD (.jstr [])), some now, false, none⟩, ?_, rfl, rfl⟩
        rw [hans2]
        exact List.mem_append_right _ (List.mem_singleton.mpr rfl)
  · intro now e q st questions text err db hq
    unfold submit_response
    rw [if_neg (by simpa using hq)]

/-- Witness for the amended C5: the concrete run of `c5_counterexample`
(score 0 stored for a schema-incomplete reply) and a failing oracle call
(question 10 exists) surfacing as the same error with nothing returned. -/
theorem c5_missing_total_score_default_witness :
    (⟨none, none⟩ : GradeData).total_score = none ∧
    ((⟨10, .jnum 0, .jstr []⟩ : GradeResult).total_score = .jnum 0 ∧
      ∃ a ∈ ([⟨1, 1, 10, [], some 0, some (.jstr []), some 50, false, none⟩]
          : List Answer), a.question_id = 10 ∧ a.llm_score = some 0) ∧
    submit_response 50 1 10 2 [10] [] (.error ⟨503, "x"⟩) ⟨[], [], 1, 1⟩
      = .error ⟨503, "x"⟩ :=
  ⟨rfl,
    c5_missing_total_score_default.1 50 1 10 2 [10] [] ⟨none, none⟩
      ⟨[], [], 1, 1⟩
      ⟨[⟨1, 1, 2, some 50, some 50⟩],
        [⟨1, 1, 10, [], some 0, some (.jstr []), some 50, false, none⟩], 2, 2⟩
      ⟨10, .jnum 0, .jstr []⟩ rfl (by rfl),
    c5_missing_total_score_default.2 50 1 10 2 [10] [] ⟨503, "x"⟩
      ⟨[], [], 1, 1⟩ (by decide)⟩

/-- Inversion of a successful `submit_assigned_dispute`: exactly one
`pending` row for this submission is appended, and no prior dispute of
this submission shares its `question_id` (for the overall target because
the overall lock check passed, for a question target because the
per-question check passed). -/
theorem submit_assigned_dispute_ok (sub_id : Nat) (questions : List Question)
    (target : String) (qn? : Option Int) (arg : Text)
    (disputes : List AssignedExamDispute) (next_id now : Nat)
    (ds' : List AssignedExamDispute) (d : AssignedExamDispute)
    (h : submit_assigned_dispute sub_id questions target qn? arg disputes
          next_id now = .ok (ds', d)) :
    ds' = disputes ++ [d] ∧ d.status = "pending" ∧
    d.submission_id = sub_id ∧
    disputes.any (fun x => x.submission_id = sub_id &&
      x.question_id = d.question_id) = false := by
  unfold submit_assigned_dispute at h
  split at h
  · simp at h
  · split at h
    · split at h
      · simp at h
      · rename_i hov
        unfold finishAssignedDispute at h
        split at h
        · simp at h
        · rcases h with ⟨⟩
          exact ⟨rfl, rfl, rfl, by simpa using hov⟩
    · split at h
      · simp at h
      · split at h
        · simp at h
        · split at h
          · simp at h
          · rename_i question hq
            split at h
            · simp at h
            · rename_i hsame
              unfold finishAssignedDispute at h
              split at h
              · simp at h
              · rcases h with ⟨⟩
                exact ⟨rfl, rfl, rfl, by simpa using hsame⟩

/-- Claim C2, counterexample to the claim as stated: submission 7 already
has a pending question dispute (on question 5), yet an overall dispute is
accepted — the XOR direction "overall is rejected when a question dispute
exists" does not hold for assigned exams. -/
theorem c2_counterexample :
    submit_assigned_dispute 7 [⟨5, 1, 1, [], 10⟩] "overall" none []
        [⟨0, 7, some 5, [], "pending", none, none, none, none, 0⟩] 1 50
      = .ok ([⟨0, 7, some 5, [], "pending", none, none, none, none, 0⟩,
          ⟨1, 7, none, [], "pending", none, none, none, none, 50⟩],
        ⟨1, 7, none, [], "pending", none, none, none, none, 50⟩) := by
  rfl

/-- Claim C2, amended: for assigned exams, a question dispute is rejected
with Conflict when a dispute for that question exists or when an overall
dispute exists; an overall dispute is rejected with Conflict only when a
prior overall dispute exists (an existing question dispute does not block
it); a successful submission appends exactly one `pending` row without
calling the oracle; and over any history at most one overall dispute and
at most one dispute per question exist (all disputes of a submission have
pairwise distinct `question_id`). -/
theorem c2_assigned_dispute_locking :
    (∀ sub_id (questions : List Question) n arg disputes next_id now question,
        ¬(n < 1 ∨ n > (questions.length : Int)) →
        questions.find? (fun q => q.q_index = n) = some question →
        disputes.any (fun x => x.submission_id = sub_id &&
          x.question_id = some question.id) = true →
        submit_assigned_dispute sub_id questions "question" (some n) arg
            disputes next_id now
          = .error ⟨409, "You can only dispute each question once."⟩) ∧
    (∀ sub_id (questions : List Question) n arg disputes next_id now question,
        ¬(n < 1 ∨ n > (questions.length : Int)) →
        questions.find? (fun q => q.q_index = n) = some question →
        disputes.any (fun x => x.submission_id = sub_id &&
          x.question_id = some question.id) = false →
        disputes.any (fun x => x.submission_id = sub_id &&
          x.question_id = none) = true →
        submit_assigned_dispute sub_id questions "question" (some n) arg
            disputes next_id now
          = .error ⟨409,
              "Overall dispute already submitted; disputes locked for this attempt."⟩) ∧
    (∀ sub_id (questions : List Question) qn? arg disputes next_id now,
        disputes.any (fun x => x.submission_id = sub_id &&
          x.question_id = none) = true →
        submit_assigned_dispute sub_id questions "overall" qn? arg
            disputes next_id now
          = .error ⟨409, "Overall dispute already submitted for this exam"⟩) ∧
    (∀ sub_id questions target qn? arg disputes next_id now ds' d,
        submit_assigned_dispute sub_id questions target qn? arg disputes
            next_id now = .ok (ds', d) →
        ds' = disputes ++ [d] ∧ d.status = "pending") ∧
    (∀ (questions : List Question) sub_id ops,
        (((runAssignedOps questions sub_id [] ops).filter
            (fun d => d.submission_id = sub_id)).map
          (fun d => d.question_id)).Nodup) := by
  refine ⟨?_, ?_, ?_, ?_, ?_⟩
  · intro sub_id questions n arg disputes next_id now question hb hq hsame
    unfold submit_assigned_dispute
    rw [if_neg (by simp)]
    rw [if_neg (by simp)]
    simp only
    rw [if_neg hb, hq]
    simp only
    rw [if_pos (by simpa using hsame)]
  · intro sub_id questions n arg disputes next_id now question hb hq hsame hov
    unfold submit_assigned_dispute
    rw [if_neg (by simp)]
    rw [if_neg (by simp)]
    simp only
    rw [if_neg hb, hq]
    simp only
    rw [if_neg (by simpa using hsame)]
    unfold finishAssignedDispute
    rw [if_pos (by simpa using hov)]
  · intro sub_id questions qn? arg disputes next_id now hov
    unfold submit_assigned_dispute
    rw [if_neg (by simp)]
    rw [if_pos rfl]
    rw [if_pos (by simpa using hov)]
  · intro sub_id questions target qn? arg disputes next_id now ds' d h
    obtain ⟨h1, h2, _, _⟩ := submit_assigned_dispute_ok sub_id questions
      target qn? arg disputes next_id now ds' d h
    exact ⟨h1, h2⟩
  · intro questions sub_id ops
    suffices haux : ∀ (ds : List AssignedExamDispute),
        (((ds.filter (fun d => d.submission_id = sub_id)).map
          (fun d => d.question_id)).Nodup) →
        (((runAssignedOps questions sub_id ds ops).filter
            (fun d => d.submission_id = sub_id)).map
          (fun d => d.question_id)).Nodup by
      exact haux [] (by simp)
    induction ops with
    | nil => intro ds hds; exact hds
    | cons op rest ih =>
      intro ds hds
      apply ih
      unfold applyAssignedOp
      split
      · rename_i ds' d h
        obtain ⟨h1, _, h3, h4⟩ := submit_assigned_dispute_ok sub_id questions
          op.target op.question_number op.argument ds ds.length op.now ds' d h
        subst h1
        rw [List.filter_append, List.map_append]
        have hd : List.filter (fun x => decide (x.submission_id = sub_id)) [d]
            = [d] := by
          simp [h3]
        rw [hd, List.map_cons, List.map_nil]
        rw [List.nodup_append]
        refine ⟨hds, by simp, ?_⟩
        intro x hx hy
        simp only [List.mem_singleton] at hy
        subst hy
        simp only [List.mem_map] at hx
        obtain ⟨z, hz, hzx⟩ := hx
        have hzm := List.mem_filter.mp hz
        have hany : ds.any (fun x => x.submission_id = sub_id &&
            x.question_id = d.question_id) = true := by
          apply List.any_eq_true.mpr
          refine ⟨z, hzm.1, ?_⟩
          simp only [Bool.and_eq_true, decide_eq_true_eq]
          exact ⟨by simpa using hzm.2, hzx⟩
        rw [hany] at h4
        exact absurd h4 (by simp)
      · exact hds

/-- Witness for the amended C2: with one question dispute present, a
second dispute of the same question is rejected with 409. -/
theorem c2_assigned_dispute_locking_witness :
    ¬((1 : Int) < 1 ∨ (1 : Int) > ([(⟨5, 1, 1, [], 10⟩ : Question)].length : Int)) ∧
    [(⟨5, 1, 1, [], 10⟩ : Question)].find? (fun q => q.q_index = 1)
      = some ⟨5, 1, 1, [], 10⟩ ∧
    [(⟨0, 7, some 5, [], "pending", none, none, none, none, 0⟩
        : AssignedExamDispute)].any
      (fun x => x.submission_id = 7 && x.question_id = some 5) = true ∧
    submit_assigned_dispute 7 [⟨5, 1, 1, [], 10⟩] "question" (some 1) []
        [⟨0, 7, some 5, [], "pending", none, none, none, none, 0⟩] 1 50
      = .error ⟨409, "You can only dispute each question once."⟩ :=
  ⟨by decide, by rfl, by rfl,
    c2_assigned_dispute_locking.1 7 [⟨5, 1, 1, [], 10⟩] 1 []
      [⟨0, 7, some 5, [], "pending", none, none, none, none, 0⟩] 1 50
      ⟨5, 1, 1, [], 10⟩ (by decide) (by rfl) (by rfl)⟩

/-- Claim C8: overdue sweep.  When the due date is past and the attempt is
unsubmitted, the sweep submits it now (filling `started_at` if unset) and
rewrites each answer independently (`map` of a per-answer function): an
ungraded answer whose question and rubric exist and whose oracle call
succeeds with a coercible score is graded; an oracle failure leaves that
answer unchanged without affecting the rest; already-graded answers are
untouched; and a second sweep of the result is a no-op for any later
time and any oracle. -/
theorem c8_overdue_sweep :
    ∀ now dd (oracle : Nat → Except HErr GradeData) questions rubrics
      (sub : Submission) (answers : List Answer),
      dd < now → sub.submitted_at = none →
      (sweep_overdue now (some dd) oracle questions rubrics sub answers
        = ({ sub with submitted_at := some now,
                      started_at := some (sub.started_at.getD now) },
           answers.map (sweepAnswer now oracle questions rubrics sub.id))) ∧
      (∀ a gd sc q0 r0, a.submission_id = sub.id → a.llm_score = none →
        questions.find? (fun q => q.id = a.question_id) = some q0 →
        rubrics.find? (fun r => r.question_id = a.question_id) = some r0 →
        oracle a.id = .ok gd →
        pyFloat ((gd.total_score).getD (.jnum 0)) = some sc →
        sweepAnswer now oracle questions rubrics sub.id a
          = { a with llm_score := some sc,
                     llm_feedback := some ((gd.feedback).getD (.jstr [])),
                     graded_at := some now }) ∧
      (∀ a e, oracle a.id = .error e →
        sweepAnswer now oracle questions rubrics sub.id a = a) ∧
      (∀ a v, a.llm_score = some v →
        sweepAnswer now oracle questions rubrics sub.id a = a) ∧
      (∀ now2 (oracle2 : Nat → Except HErr GradeData),
        sweep_overdue now2 (some dd) oracle2 questions rubrics
            { sub with submitted_at := some now,
                       started_at := some (sub.started_at.getD now) }
            (answers.map (sweepAnswer now oracle questions rubrics sub.id))
          = ({ sub with submitted_at := some now,
                        started_at := some (sub.started_at.getD now) },
             answers.map (sweepAnswer now oracle questions rubrics sub.id))) := by
  intro now dd oracle questions rubrics sub answers hdd hnone
  refine ⟨?_, ?_, ?_, ?_, ?_⟩
  · unfold sweep_overdue
    dsimp only
    rw [if_pos hdd, hnone]
  · intro a gd sc q0 r0 hsubm hscore hq hr horc hfl
    unfold sweepAnswer
    rw [if_pos (by simp [hsubm, hscore])]
    simp only [hq, hr, horc, hfl]
  · intro a e horc
    unfold sweepAnswer
    split
    · split
      · split
        · rw [horc]
        · rfl
      · rfl
    · rfl
  · intro a v hv
    unfold sweepAnswer
    rw [if_neg (by simp [hv])]
  · intro now2 oracle2
    unfold sweep_overdue
    dsimp only
    split
    · rfl
    · rfl

/-- Witness for C8: attempt with one ungraded answer swept at `now = 5`
after due date 1; the attempt becomes submitted at 5 and the answer gets
the oracle score 6. -/
theorem c8_overdue_sweep_witness :
    (1 : Nat) < 5 ∧
    sweep_overdue 5 (some 1) (fun _ => .ok ⟨some (.jnum 6), none⟩)
        [⟨10, 1, 1, [], 10⟩] [⟨10, []⟩] ⟨1, 1, 2, none, none⟩
        [⟨1, 1, 10, [], none, none, none, false, none⟩]
      = (⟨1, 1, 2, some 5, some 5⟩,
         [⟨1, 1, 10, [], some 6, some (.jstr []), some 5, false, none⟩]) :=
  ⟨by decide, by
    have h := (c8_overdue_sweep 5 1 (fun _ => .ok ⟨some (.jnum 6), none⟩)
      [⟨10, 1, 1, [], 10⟩] [⟨10, []⟩] ⟨1, 1, 2, none, none⟩
      [⟨1, 1, 10, [], none, none, none, false, none⟩] (by decide) (by rfl)).1
    exact h.trans (by rfl)⟩

/-- A submission-scoped `SubmissionRegrade` table with no row for this
submission is empty. -/
theorem subRegrades_nil_of_any_false (sub_id : Nat) (st : PracticeState)
    (hsub : ∀ r ∈ st.subRegrades, r.submission_id = sub_id)
    (hov : st.subRegrades.any (fun r => r.submission_id = sub_id) = false) :
    st.subRegrades = [] := by
  cases hsr : st.subRegrades with
  | nil => rfl
  | cons x xs =>
    have hx : x ∈ st.subRegrades := hsr ▸ List.mem_cons_self x xs
    have hxs := hsub x hx
    have hany : st.subRegrades.any (fun r => r.submission_id = sub_id) = true :=
      List.any_eq_true.mpr ⟨x, hx, by simpa using hxs⟩
    rw [hany] at hov
    exact absurd hov (by simp)

/-- One practice dispute submission preserves the lock invariant. -/
theorem practiceInv_preserved (questions : List Question) (sub_id : Nat)
    (st : PracticeState) (op : PracticeOp) (h : PracticeInv sub_id st) :
    PracticeInv sub_id (applyPracticeOp questions sub_id st op) := by
  obtain ⟨hnd, hwit, hlen, hsub, hxor⟩ := h
  cases op with
  | qdis pyStr reply qn arg now =>
    unfold applyPracticeOp
    dsimp only
    rcases hok : handle_question_dispute pyStr reply questions sub_id qn arg
        now st with e | ⟨st', resp⟩
    · exact ⟨hnd, hwit, hlen, hsub, hxor⟩
    · show PracticeInv sub_id st'
      obtain ⟨n, question, answer, llm, hqn, hq, ha, hov, hrg, hllm, hdec,
        hregs, hsubs, hans⟩ :=
        handle_question_dispute_ok pyStr reply questions sub_id qn arg now
          st st' resp hok
      have hfind := List.find?_some ha
      simp only [Bool.and_eq_true, decide_eq_true_eq] at hfind
      have hamem := List.mem_of_find?_eq_some ha
      have hsubnil : st.subRegrades = [] :=
        subRegrades_nil_of_any_false sub_id st hsub hov
      have hpres : ∀ b ∈ st.answers, ∃ a2 ∈ st'.answers,
          a2.id = b.id ∧ a2.submission_id = b.submission_id := by
        intro b hb
        rw [hans]
        split
        · refine ⟨(if b.id = answer.id then
              { b with llm_score := some llm.question_score_new,
                       llm_feedback := some llm.feedback_new } else b),
            List.mem_map_of_mem _ hb, ?_, ?_⟩
          · split <;> rfl
          · split <;> rfl
        · exact ⟨b, hb, rfl, rfl⟩
      refine ⟨?_, ?_, ?_, ?_, ?_⟩
      · rw [hregs, List.map_append, List.nodup_append]
        refine ⟨hnd, by simp, ?_⟩
        intro x hx hy
        simp only [List.map_cons, List.map_nil, List.mem_singleton] at hy
        subst hy
        simp only [List.mem_map] at hx
        obtain ⟨r, hrmem, hrid⟩ := hx
        have hany : st.regrades.any (fun r => r.answer_id = answer.id) = true :=
          List.any_eq_true.mpr ⟨r, hrmem, by simpa using hrid⟩
        rw [hany] at hrg
        exact absurd hrg (by simp)
      · intro r hr
        rw [hregs] at hr
        rcases List.mem_append.mp hr with hrold | hrnew
        · obtain ⟨b, hb, hbid, hbsub⟩ := hwit r hrold
          obtain ⟨a2, ha2, ha2id, ha2sub⟩ := hpres b hb
          exact ⟨a2, ha2, ha2id.trans hbid, ha2sub.trans hbsub⟩
        · simp only [List.mem_singleton] at hrnew
          subst hrnew
          obtain ⟨a2, ha2, ha2id, ha2sub⟩ := hpres answer hamem
          exact ⟨a2, ha2, ha2id, ha2sub.trans hfind.1⟩
      · rw [hsubs]; exact hlen
      · rw [hsubs]; exact hsub
      · left; rw [hsubs]; exact hsubnil
  | odis pyStr reply arg =>
    unfold applyPracticeOp
    dsimp only
    rcases hok : handle_overall_dispute pyStr reply questions sub_id arg st
      with e | ⟨st', resp⟩
    · exact ⟨hnd, hwit, hlen, hsub, hxor⟩
    · show PracticeInv sub_id st'
      obtain ⟨llm, answers', hcnt, hov, hllm, hdec, happ, hansEq, hregsEq,
        hsubsEq⟩ :=
        handle_overall_dispute_ok pyStr reply questions sub_id arg st st' resp hok
      have hregnil : st.regrades = [] := by
        cases hrg : st.regrades with
        | nil => rfl
        | cons r rs =>
          have hrmem : r ∈ st.regrades := hrg ▸ List.mem_cons_self r rs
          obtain ⟨b, hb, hbid, hbsub⟩ := hwit r hrmem
          have hpred : (st.answers.any (fun a =>
              a.id = r.answer_id && a.submission_id = sub_id)) = true :=
            List.any_eq_true.mpr ⟨b, hb, by simp [hbid, hbsub]⟩
          have hrin : r ∈ st.regrades.filter (fun r => st.answers.any (fun a =>
              a.id = r.answer_id && a.submission_id = sub_id)) :=
            List.mem_filter.mpr ⟨hrmem, by simpa using hpred⟩
          have hpos := List.length_pos.mpr (List.ne_nil_of_mem hrin)
          omega
      have hsubnil : st.subRegrades = [] :=
        subRegrades_nil_of_any_false sub_id st hsub hov
      refine ⟨?_, ?_, ?_, ?_, ?_⟩
      · rw [hregsEq, hregnil]; simp
      · intro r hr
        rw [hregsEq, hregnil] at hr
        simp at hr
      · rw [hsubsEq, hsubnil]; simp
      · intro r hr
        rw [hsubsEq] at hr
        rcases List.mem_append.mp hr with hro | hrn
        · exact hsub r hro
        · simp only [List.mem_singleton] at hrn
          subst hrn
          rfl
      · right; rw [hregsEq]; exact hregnil

/-- Every state reachable by a history of practice dispute submissions
from dispute-free tables satisfies the lock invariant. -/
theorem practiceInv_reachable (questions : List Question) (sub_id : Nat)
    (answers0 : List Answer) (ops : List PracticeOp) :
    PracticeInv sub_id (runPracticeOps questions sub_id ⟨answers0, [], []⟩ ops) := by
  suffices haux : ∀ (st : PracticeState), PracticeInv sub_id st →
      PracticeInv sub_id (runPracticeOps questions sub_id st ops) by
    refine haux _ ⟨by simp, by simp, by simp, by simp, Or.inl rfl⟩
  induction ops with
  | nil => intro st hst; exact hst
  | cons op rest ih =>
    intro st hst
    exact ih _ (practiceInv_preserved questions sub_id st op hst)

/-- Claim C4: practice-exam dispute mutual exclusion.  Over any history of
dispute submissions from dispute-free tables, question `Regrade` rows
reference pairwise-distinct answers (at most one per distinct question,
since a question's dispute always targets the unique answer row found for
(attempt, question)), at most one `SubmissionRegrade` exists, and the two
kinds never coexist.  A question dispute is rejected with 409 when an
overall dispute exists or when its answer already has a `Regrade`; an
overall dispute is rejected with 409 when any question `Regrade` or a
prior overall dispute exists; and a rejected submission leaves the state
(hence every answer) unchanged. -/
theorem c4_practice_dispute_xor :
    (∀ questions sub_id (answers0 : List Answer) ops,
        ((runPracticeOps questions sub_id ⟨answers0, [], []⟩ ops).regrades.map
          (fun r => r.answer_id)).Nodup ∧
        (runPracticeOps questions sub_id ⟨answers0, [], []⟩
          ops).subRegrades.length ≤ 1 ∧
        ¬((runPracticeOps questions sub_id ⟨answers0, [], []⟩ ops).regrades ≠ [] ∧
          (runPracticeOps questions sub_id ⟨answers0, [], []⟩
            ops).subRegrades ≠ [])) ∧
    (∀ pyStr reply (questions : List Question) sub_id n arg now st question answer,
        ¬(n < 1 ∨ n > (questions.length : Int)) →
        questions.find? (fun q => q.q_index = n) = some question →
        st.answers.find? (fun a => a.submission_id = sub_id &&
          a.question_id = question.id) = some answer →
        st.subRegrades.any (fun r => r.submission_id = sub_id) = true →
        handle_question_dispute pyStr reply questions sub_id (some n) arg now st
          = .error ⟨409,
              "Overall dispute already submitted; disputes locked for this attempt."⟩) ∧
    (∀ pyStr reply (questions : List Question) sub_id n arg now st question answer,
        ¬(n < 1 ∨ n > (questions.length : Int)) →
        questions.find? (fun q => q.q_index = n) = some question →
        st.answers.find? (fun a => a.submission_id = sub_id &&
          a.question_id = question.id) = some answer →
        st.subRegrades.any (fun r => r.submission_id = sub_id) = false →
        st.regrades.any (fun r => r.answer_id = answer.id) = true →
        handle_question_dispute pyStr reply questions sub_id (some n) arg now st
          = .error ⟨409, "You can only dispute each question once."⟩) ∧
    (∀ pyStr reply (questions : List Question) sub_id arg st,
        (st.regrades.filter (fun r => st.answers.any (fun a =>
          a.id = r.answer_id && a.submission_id = sub_id))).length > 0 →
        handle_overall_dispute pyStr reply questions sub_id arg st
          = .error ⟨409,
              "Overall review is only available before disputing individual questions."⟩) ∧
    (∀ pyStr reply (questions : List Question) sub_id arg st,
        (st.regrades.filter (fun r => st.answers.any (fun a =>
          a.id = r.answer_id && a.submission_id = sub_id))).length = 0 →
        st.subRegrades.any (fun r => r.submission_id = sub_id) = true →
        handle_overall_dispute pyStr reply questions sub_id arg st
          = .error ⟨409, "Overall dispute already submitted for this attempt."⟩) ∧
    (∀ pyStr reply (questions : List Question) sub_id qn arg now st err,
        handle_question_dispute pyStr reply questions sub_id qn arg now st
          = .error err →
        applyPracticeOp questions sub_id st (.qdis pyStr reply qn arg now) = st) ∧
    (∀ pyStr reply (questions : List Question) sub_id arg st err,
        handle_overall_dispute pyStr reply questions sub_id arg st = .error err →
        applyPracticeOp questions sub_id st (.odis pyStr reply arg) = st) := by
  refine ⟨?_, ?_, ?_, ?_, ?_, ?_, ?_⟩
  · intro questions sub_id answers0 ops
    obtain ⟨h1, _, h3, _, h5⟩ := practiceInv_reachable questions sub_id answers0 ops
    refine ⟨h1, h3, ?_⟩
    rintro ⟨hr, hs⟩
    rcases h5 with h | h
    · exact hs h
    · exact hr h
  · intro pyStr reply questions sub_id n arg now st question answer hb hq ha hov
    unfold handle_question_dispute
    dsimp only
    rw [if_neg hb]
    simp only [hq, ha]
    rw [if_pos hov]
  · intro pyStr reply questions sub_id n arg now st question answer hb hq ha hov hrg
    unfold handle_question_dispute
    dsimp only
    rw [if_neg hb]
    simp only [hq, ha]
    rw [if_neg (by simp [hov]), if_pos hrg]
  · intro pyStr reply questions sub_id arg st hcnt
    unfold handle_overall_dispute
    rw [if_pos hcnt]
  · intro pyStr reply questions sub_id arg st hcnt hov
    unfold handle_overall_dispute
    rw [if_neg (by omega), if_pos hov]
  · intro pyStr reply questions sub_id qn arg now st err h
    unfold applyPracticeOp
    dsimp only
    rw [h]
  · intro pyStr reply questions sub_id arg st err h
    unfold applyPracticeOp
    dsimp only
    rw [h]

/-- Witness for C4: a state with an overall dispute on submission 7; a
question dispute for question 1 (answer row 1) is rejected with 409. -/
theorem c4_practice_dispute_xor_witness :
    ¬((1 : Int) < 1 ∨ (1 : Int) > ([(⟨5, 1, 1, [], 10⟩ : Question)].length : Int)) ∧
    ([(⟨5, 1, 1, [], 10⟩ : Question)].find? (fun q => q.q_index = 1)
      = some ⟨5, 1, 1, [], 10⟩) ∧
    (([⟨1, 7, 5, [], some 4, none, none, false, none⟩] : List Answer).find?
      (fun a => a.submission_id = 7 && a.question_id = 5)
      = some ⟨1, 7, 5, [], some 4, none, none, false, none⟩) ∧
    (([⟨7, [], keepT, .jnull, 4, 4⟩] : List SubmissionRegrade).any
      (fun r => r.submission_id = 7) = true) ∧
    handle_question_dispute (fun _ => keepT) none [⟨5, 1, 1, [], 10⟩] 7 (some 1)
        [] 9 ⟨[⟨1, 7, 5, [], some 4, none, none, false, none⟩], [],
          [⟨7, [], keepT, .jnull, 4, 4⟩]⟩
      = .error ⟨409,
          "Overall dispute already submitted; disputes locked for this attempt."⟩ :=
  ⟨by decide, by rfl, by rfl, by rfl,
    c4_practice_dispute_xor.2.1 (fun _ => keepT) none [⟨5, 1, 1, [], 10⟩] 7 1 [] 9
      ⟨[⟨1, 7, 5, [], some 4, none, none, false, none⟩], [],
        [⟨7, [], keepT, .jnull, 4, 4⟩]⟩
      ⟨5, 1, 1, [], 10⟩ ⟨1, 7, 5, [], some 4, none, none, false, none⟩
      (by decide) (by rfl) (by rfl) (by rfl)⟩

/-! ## Helper lemmas for the extraction round-trip. -/

/-- `dropWhile` over an append whose second part starts with a
non-matching element. -/
theorem dropWhile_append_head {α : Type} {p : α → Bool} (l₁ l₂ : List α)
    (c : α) (hc : l₂.head? = some c) (hpc : p c = false) :
    (l₁ ++ l₂).dropWhile p = l₁.dropWhile p ++ l₂ := by
  induction l₁ with
  | nil =>
    rcases l₂ with _ | ⟨x, xs⟩
    · simp at hc
    · cases Option.some.inj hc
      simp only [List.nil_append, List.dropWhile_nil]
      exact List.dropWhile_cons_of_neg (by simp [hpc])
  | cons x xs ih =>
    cases hpx : p x with
    | true =>
      rw [List.cons_append, List.dropWhile_cons_of_pos hpx,
        List.dropWhile_cons_of_pos hpx]
      exact ih
    | false =>
      rw [List.cons_append, List.dropWhile_cons_of_neg (by simp [hpx]),
        List.dropWhile_cons_of_neg (by simp [hpx]), List.cons_append]

/-- `dropWhile` over an append whose first part retains an element. -/
theorem dropWhile_append_of_ne_nil {α : Type} {p : α → Bool} (l₁ l₂ : List α)
    (h : l₁.dropWhile p ≠ []) :
    (l₁ ++ l₂).dropWhile p = l₁.dropWhile p ++ l₂ := by
  induction l₁ with
  | nil => simp at h
  | cons x xs ih =>
    cases hpx : p x with
    | true =>
      rw [List.dropWhile_cons_of_pos hpx] at h
      rw [List.cons_append, List.dropWhile_cons_of_pos hpx,
        List.dropWhile_cons_of_pos hpx]
      exact ih h
    | false =>
      rw [List.cons_append, List.dropWhile_cons_of_neg (by simp [hpx]),
        List.dropWhile_cons_of_neg (by simp [hpx]), List.cons_append]

/-- Stripping text that starts and ends with non-whitespace is a no-op. -/
theorem pystrip_eq_self (x : Text) (c1 c2 : Char) (h1 : x.head? = some c1)
    (hc1 : pyIsSpace c1 = false) (h2 : x.getLast? = some c2)
    (hc2 : pyIsSpace c2 = false) : pystrip x = x := by
  unfold pystrip
  have hfront : x.dropWhile pyIsSpace = x := by
    rcases x with _ | ⟨y, ys⟩
    · simp at h1
    · cases Option.some.inj h1
      exact List.dropWhile_cons_of_neg (by simp [hc1])
  rw [hfront]
  have hback : x.reverse.dropWhile pyIsSpace = x.reverse := by
    rcases hrev : x.reverse with _ | ⟨y, ys⟩
    · simp
    · have hh : x.reverse.head? = some c2 := by rw [List.head?_reverse, h2]
      rw [hrev] at hh
      cases Option.some.inj hh
      exact List.dropWhile_cons_of_neg (by simp [hc2])
  rw [hback, List.reverse_reverse]

/-- Stripping a concatenation around a block with non-whitespace ends
strips only the outer parts. -/
theorem pystrip_concat (q s r : Text) (c1 c2 : Char) (h1 : s.head? = some c1)
    (hc1 : pyIsSpace c1 = false) (h2 : s.getLast? = some c2)
    (hc2 : pyIsSpace c2 = false) :
    pystrip (q ++ s ++ r)
      = q.dropWhile pyIsSpace ++ s ++ (r.reverse.dropWhile pyIsSpace).reverse := by
  have hfront : (q ++ s ++ r).dropWhile pyIsSpace
      = q.dropWhile pyIsSpace ++ (s ++ r) := by
    rw [List.append_assoc]
    apply dropWhile_append_head q (s ++ r) c1
    · rcases s with _ | ⟨x, xs⟩
      · simp at h1
      · cases Option.some.inj h1
        simp
    · exact hc1
  obtain ⟨w, hw⟩ : ∃ w, s.reverse = c2 :: w := by
    have hsrev : s.reverse.head? = some c2 := by
      rw [List.head?_reverse]; exact h2
    rcases hsv : s.reverse with _ | ⟨x, xs⟩
    · rw [hsv] at hsrev; simp at hsrev
    · rw [hsv] at hsrev
      cases Option.some.inj hsrev
      exact ⟨xs, rfl⟩
  unfold pystrip
  rw [hfront, List.reverse_append, List.reverse_append, List.append_assoc]
  have hback : (r.reverse ++ (s.reverse ++ (q.dropWhile pyIsSpace).reverse)).dropWhile
        pyIsSpace
      = r.reverse.dropWhile pyIsSpace ++
          (s.reverse ++ (q.dropWhile pyIsSpace).reverse) := by
    apply dropWhile_append_head _ _ c2
    · rw [hw]; simp
    · exact hc2
  rw [hback]
  simp [List.reverse_append, List.append_assoc]

/-- `findIdx?` skips a prefix with no matches, shifting the start index. -/
theorem findIdx?_append_false {α : Type} (p : α → Bool) (l₁ l₂ : List α)
    (i : Nat) (h : ∀ x ∈ l₁, p x = false) :
    List.findIdx? p (l₁ ++ l₂) i = List.findIdx? p l₂ (i + l₁.length) := by
  induction l₁ generalizing i with
  | nil => simp
  | cons x xs ih =>
    rw [List.cons_append, List.findIdx?_cons,
      if_neg (by simp [h x (List.mem_cons_self x xs)])]
    rw [ih (i + 1) (fun y hy => h y (List.mem_cons_of_mem x hy))]
    congr 1
    simp only [List.length_cons]
    omega

/-- A `findIdx?` result is at least the start index. -/
theorem findIdx?_ge_init {α : Type} (p : α → Bool) (l : List α) (i a : Nat)
    (h : List.findIdx? p l i = some a) : i ≤ a := by
  induction l generalizing i with
  | nil => simp at h
  | cons x xs ih =>
    rw [List.findIdx?_cons] at h
    split at h
    · cases Option.some.inj h
      exact Nat.le_refl _
    · exact Nat.le_of_succ_le (ih (i + 1) h)

/-- The first delimiter of prose (free of `{` and `[`) followed by an
object is the object's brace, and the scan mode is object. -/
theorem findStart_concat (q s r : Text) (h1 : s.head? = some lbraceC)
    (hq1 : lbraceC ∉ q) (hq2 : '[' ∉ q) :
    findStart (q ++ s ++ r) = some (q.length, false) := by
  obtain ⟨s1, rfl⟩ : ∃ s1, s = lbraceC :: s1 := by
    rcases s with _ | ⟨x, xs⟩
    · simp at h1
    · cases Option.some.inj h1
      exact ⟨xs, rfl⟩
  have hfb : pyFind lbraceC (q ++ lbraceC :: s1 ++ r) = some q.length := by
    unfold pyFind
    rw [List.append_assoc, List.cons_append]
    rw [findIdx?_append_false _ q _ 0
      (fun x hx => by simp; intro he; exact hq1 (he ▸ hx))]
    rw [List.findIdx?_cons, if_pos (by simp)]
    simp
  unfold findStart
  rw [hfb]
  rcases hbr : pyFind '[' (q ++ lbraceC :: s1 ++ r) with _ | a
  · rfl
  · have hge : q.length ≤ a := by
      unfold pyFind at hbr
      rw [List.append_assoc] at hbr
      rw [findIdx?_append_false _ q _ 0
        (fun x hx => by simp; intro he; exact hq2 (he ▸ hx))] at hbr
      simpa using findIdx?_ge_init _ _ _ _ hbr
    dsimp only
    rw [if_neg (by omega)]

/-- A scan that breaks is unaffected by extra text after the break. -/
theorem scanLoop_append (isArr : Bool) (st : ScanState) (i : Nat)
    (s t : Text) (e : Nat) (h : scanLoop isArr st i s = .broke e) :
    scanLoop isArr st i (s ++ t) = .broke e := by
  induction s generalizing st i with
  | nil => exact absurd h (by simp [scanLoop])
  | cons c rest ih =>
    rw [List.cons_append]
    unfold scanLoop at h ⊢
    by_cases h1 : st.escapeNext = true
    · rw [if_pos h1] at h ⊢
      exact ih _ _ h
    · rw [if_neg h1] at h ⊢
      by_cases h2 : c = '\\'
      · rw [if_pos h2] at h ⊢
        exact ih _ _ h
      · rw [if_neg h2] at h ⊢
        by_cases h3 : c = '"'
        · rw [if_pos h3] at h ⊢
          exact ih _ _ h
        · rw [if_neg h3] at h ⊢
          by_cases h4 : st.inString = true
          · rw [if_pos h4] at h ⊢
            exact ih _ _ h
          · rw [if_neg h4] at h ⊢
            dsimp only at h ⊢
            by_cases hArr : isArr = true
            · rw [if_pos hArr] at h ⊢
              by_cases h5 : ((st.bracket + if c = '[' then 1 else 0) -
                  if c = ']' then 1 else 0) = 0
              · rw [if_pos h5] at h ⊢
                exact h
              · rw [if_neg h5] at h ⊢
                exact ih _ _ h
            · rw [if_neg hArr] at h ⊢
              by_cases h5 : ((st.brace + if c = lbraceC then 1 else 0) -
                  if c = rbraceC then 1 else 0) = 0
              · rw [if_pos h5] at h ⊢
                exact h
              · rw [if_neg h5] at h ⊢
                exact ih _ _ h

/-- Core of the round-trip: the scan on prose ++ object ++ trailer
captures exactly the object. -/
theorem extractFrom_concat (s q r : Text)
    (h1 : s.head? = some lbraceC)
    (hscan : scanLoop false initScan 0 s = .broke s.length)
    (hq1 : lbraceC ∉ q) (hq2 : '[' ∉ q) :
    extractFrom (q ++ s ++ r) = .ok s := by
  unfold extractFrom
  rw [findStart_concat q s r h1 hq1 hq2]
  dsimp only
  rw [List.append_assoc, List.drop_left]
  rw [scanLoop_append false initScan 0 s r s.length hscan]
  dsimp only
  rw [List.take_left]

/-- A split is never the empty list of fragments. -/
theorem splitOnChar_ne_nil (sep : Char) (s : Text) : splitOnChar sep s ≠ [] := by
  induction s with
  | nil => simp [splitOnChar]
  | cons c rest ih =>
    unfold splitOnChar
    by_cases hc : c = sep
    · rw [if_pos hc]
      simp
    · rw [if_neg hc]
      rcases h : splitOnChar sep rest with _ | ⟨l, ls⟩
      · simp
      · simp

/-- Splitting distributes over an occurrence of the separator. -/
theorem splitOnChar_concat (sep : Char) (A B : Text) :
    splitOnChar sep (A ++ sep :: B) = splitOnChar sep A ++ splitOnChar sep B := by
  induction A with
  | nil =>
    have h1 : splitOnChar sep (sep :: B) = [] :: splitOnChar sep B := by
      simp only [splitOnChar]
      simp
    simp only [List.nil_append]
    rw [h1]
    simp only [splitOnChar]
    rfl
  | cons c A' ih =>
    by_cases hc : c = sep
    · have h1 : splitOnChar sep (c :: (A' ++ sep :: B))
          = [] :: splitOnChar sep (A' ++ sep :: B) := by
        simp only [splitOnChar]
        rw [if_pos hc]
      have h2 : splitOnChar sep (c :: A') = [] :: splitOnChar sep A' := by
        simp only [splitOnChar]
        rw [if_pos hc]
      rw [List.cons_append, h1, ih, h2, List.cons_append]
    · have h1 : splitOnChar sep (c :: (A' ++ sep :: B))
          = match splitOnChar sep (A' ++ sep :: B) with
            | [] => [[c]]
            | l :: ls => (c :: l) :: ls := by
        simp only [splitOnChar]
        rw [if_neg hc]
      have h2 : splitOnChar sep (c :: A')
          = match splitOnChar sep A' with
            | [] => [[c]]
            | l :: ls => (c :: l) :: ls := by
        simp only [splitOnChar]
        rw [if_neg hc]
      rw [List.cons_append, h1, ih, h2]
      rcases h3 : splitOnChar sep A' with _ | ⟨l, ls⟩
      · exact absurd h3 (splitOnChar_ne_nil sep A')
      · rfl

/-- Splitting text free of the separator keeps it whole. -/
theorem splitOnChar_no_sep (sep : Char) (A : Text) (h : sep ∉ A) :
    splitOnChar sep A = [A] := by
  induction A with
  | nil => rfl
  | cons c A' ih =>
    have hc : ¬ c = sep := fun he => h (he ▸ List.mem_cons_self c A')
    have h2 : splitOnChar sep (c :: A')
        = match splitOnChar sep A' with
          | [] => [[c]]
          | l :: ls => (c :: l) :: ls := by
      simp only [splitOnChar]
      rw [if_neg hc]
    rw [h2, ih (fun hm => h (List.mem_cons_of_mem c hm))]

/-- Joining undoes splitting. -/
theorem joinOnChar_splitOnChar (sep : Char) (s : Text) :
    joinOnChar sep (splitOnChar sep s) = s := by
  induction s with
  | nil => rfl
  | cons c rest ih =>
    by_cases hc : c = sep
    · have h1 : splitOnChar sep (c :: rest) = [] :: splitOnChar sep rest := by
        simp only [splitOnChar]
        rw [if_pos hc]
      rw [h1]
      rcases h3 : splitOnChar sep rest with _ | ⟨l, ls⟩
      · exact absurd h3 (splitOnChar_ne_nil sep rest)
      · rw [h3] at ih
        show [] ++ sep :: joinOnChar sep (l :: ls) = c :: rest
        rw [hc, List.nil_append, ih]
    · have h2 : splitOnChar sep (c :: rest)
          = match splitOnChar sep rest with
            | [] => [[c]]
            | l :: ls => (c :: l) :: ls := by
        simp only [splitOnChar]
        rw [if_neg hc]
      rw [h2]
      rcases h3 : splitOnChar sep rest with _ | ⟨l, ls⟩
      · exact absurd h3 (splitOnChar_ne_nil sep rest)
      · rw [h3] at ih
        rcases ls with _ | ⟨l2, ls2⟩
        · show c :: l = c :: rest
          rw [show l = rest from ih]
        · show (c :: l) ++ sep :: joinOnChar sep (l2 :: ls2) = c :: rest
          rw [List.cons_append]
          exact congrArg (List.cons c) ih

/-- Every character of a split fragment comes from the split text. -/
theorem mem_splitOnChar_subset (sep : Char) (s l : Text)
    (hl : l ∈ splitOnChar sep s) : ∀ c ∈ l, c ∈ s := by
  induction s generalizing l with
  | nil =>
    have hnil : l = [] := by simpa [splitOnChar] using hl
    subst hnil
    intro c hc
    simp at hc
  | cons x rest ih =>
    by_cases hx : x = sep
    · have h1 : splitOnChar sep (x :: rest) = [] :: splitOnChar sep rest := by
        simp only [splitOnChar]
        rw [if_pos hx]
      rw [h1] at hl
      rcases List.mem_cons.mp hl with h | h
      · subst h
        intro c hc
        simp at hc
      · intro c hc
        exact List.mem_cons_of_mem _ (ih l h c hc)
    · have h2 : splitOnChar sep (x :: rest)
          = match splitOnChar sep rest with
            | [] => [[x]]
            | l0 :: ls => (x :: l0) :: ls := by
        simp only [splitOnChar]
        rw [if_neg hx]
      rw [h2] at hl
      rcases h3 : splitOnChar sep rest with _ | ⟨l0, ls⟩
      · exact absurd h3 (splitOnChar_ne_nil sep rest)
      · rw [h3] at hl
        rcases List.mem_cons.mp hl with h | h
        · subst h
          intro c hc
          rcases List.mem_cons.mp hc with h | h
          · rw [h]
            exact List.mem_cons_self x rest
          · apply List.mem_cons_of_mem
            apply ih l0 _ c h
            rw [h3]
            exact List.mem_cons_self l0 ls
        · intro c hc
          apply List.mem_cons_of_mem
          apply ih l _ c hc
          rw [h3]
          exact List.mem_cons_of_mem l0 h

/-- Stripping only removes characters. -/
theorem pystrip_subset (s : Text) : ∀ c ∈ pystrip s, c ∈ s := by
  intro c hc
  unfold pystrip at hc
  rw [List.mem_reverse] at hc
  have h1 : c ∈ (s.dropWhile pyIsSpace).reverse :=
    (List.IsSuffix.sublist (List.dropWhile_suffix pyIsSpace)).subset hc
  rw [List.mem_reverse] at h1
  exact (List.IsSuffix.sublist (List.dropWhile_suffix pyIsSpace)).subset h1

/-- Text that starts with a fence marker contains a backtick. -/
theorem startsWith3Ticks_mem (s : Text) (h : startsWith3Ticks s = true) :
    btickC ∈ s := by
  unfold startsWith3Ticks at h
  rcases s with _ | ⟨x, xs⟩
  · simp [List.isPrefixOf] at h
  · rw [show ([btickC, btickC, btickC].isPrefixOf (x :: xs))
        = ((btickC == x) && ([btickC, btickC].isPrefixOf xs)) from rfl] at h
    cases hbe : (btickC == x) with
    | false =>
      rw [hbe] at h
      simp at h
    | true =>
      rw [beq_iff_eq.mp hbe]
      exact List.mem_cons_self x xs

/-- Text whose first character is not a backtick starts no fence. -/
theorem startsWith3Ticks_head (s : Text) (c : Char) (hh : s.head? = some c)
    (hc : ¬ c = btickC) : startsWith3Ticks s = false := by
  rcases s with _ | ⟨x, xs⟩
  · simp at hh
  · have hx : x = c := Option.some.inj hh
    unfold startsWith3Ticks
    rw [show ([btickC, btickC, btickC].isPrefixOf (x :: xs))
        = ((btickC == x) && ([btickC, btickC].isPrefixOf xs)) from rfl]
    cases hbe : (btickC == x) with
    | false => rfl
    | true =>
      exfalso
      apply hc
      rw [← hx]
      exact (beq_iff_eq.mp hbe).symm

/-- Fence stripping leaves unfenced text alone. -/
theorem stripFence_id (x : Text) (h : startsWith3Ticks x = false) :
    stripFence x = x := by
  unfold stripFence
  rw [if_neg (by simp [h])]

/-- The scan over a bare scannable object captures it whole. -/
theorem extractFrom_bare (s : Text) (h1 : s.head? = some lbraceC)
    (hscan : scanLoop false initScan 0 s = .broke s.length) :
    extractFrom s = .ok s := by
  have h := extractFrom_concat s [] [] h1 hscan (by simp) (by simp)
  simpa using h

/-- Extraction of a bare scannable object returns it unchanged. -/
theorem extract_candidate_bare (s : Text) (hs : ScannableObject s) :
    extract_candidate s = .ok s := by
  obtain ⟨h1, h2, h3, h4⟩ := hs
  unfold extract_candidate
  rw [pystrip_eq_self s lbraceC rbraceC h1 (by decide) h2 (by decide)]
  rw [stripFence_id s (startsWith3Ticks_head s lbraceC h1 (by decide))]
  exact extractFrom_bare s h1 h3

/-- Extraction through leading and trailing prose returns the object. -/
theorem extract_candidate_prose (s p t : Text) (hs : ScannableObject s)
    (hp1 : lbraceC ∉ p) (hp2 : '[' ∉ p) (hp3 : btickC ∉ p) :
    extract_candidate (p ++ s ++ t) = .ok s := by
  obtain ⟨h1, h2, h3, h4⟩ := hs
  unfold extract_candidate
  rw [pystrip_concat p s t lbraceC rbraceC h1 (by decide) h2 (by decide)]
  have hqsub : ∀ c ∈ p.dropWhile pyIsSpace, c ∈ p :=
    fun c hc => (List.IsSuffix.sublist (List.dropWhile_suffix pyIsSpace)).subset hc
  have hnt : startsWith3Ticks (p.dropWhile pyIsSpace ++ s
      ++ (t.reverse.dropWhile pyIsSpace).reverse) = false := by
    rcases hqd : p.dropWhile pyIsSpace with _ | ⟨c, cs⟩
    · simp only [List.nil_append]
      obtain ⟨s1, rfl⟩ : ∃ s1, s = lbraceC :: s1 := by
        rcases s with _ | ⟨x, xs⟩
        · simp at h1
        · cases Option.some.inj h1
          exact ⟨xs, rfl⟩
      exact startsWith3Ticks_head _ lbraceC rfl (by decide)
    · apply startsWith3Ticks_head
        ((c :: cs) ++ s ++ (t.reverse.dropWhile pyIsSpace).reverse) c rfl
      intro he
      apply hp3
      rw [← he]
      apply hqsub
      rw [hqd]
      exact List.mem_cons_self c cs
  rw [stripFence_id _ hnt]
  apply extractFrom_concat s _ _ h1 h3
  · intro hm
    exact hp1 (hqsub _ hm)
  · intro hm
    exact hp2 (hqsub _ hm)

/-- The fenced wrapper ends in a backtick. -/
theorem fenceWrap_getLast (s : Text) : (fenceWrap s).getLast? = some btickC := by
  unfold fenceWrap
  rw [← List.head?_reverse]
  simp [List.reverse_append]

/-- Stripping the fence from a fenced object recovers the object. -/
theorem stripFence_fenceWrap (s : Text) (hbt : btickC ∉ s) :
    stripFence (fenceWrap s) = s := by
  have hdr : fenceWrap s
      = [btickC, btickC, btickC, 'j', 's', 'o', 'n']
        ++ '\n' :: (s ++ '\n' :: [btickC, btickC, btickC]) := rfl
  have hsplit : splitOnChar '\n' (fenceWrap s)
      = [[btickC, btickC, btickC, 'j', 's', 'o', 'n']]
        ++ (splitOnChar '\n' s ++ [[btickC, btickC, btickC]]) := by
    rw [hdr, splitOnChar_concat, splitOnChar_concat]
    rw [splitOnChar_no_sep '\n' [btickC, btickC, btickC, 'j', 's', 'o', 'n'] (by decide)]
    rw [splitOnChar_no_sep '\n' [btickC, btickC, btickC] (by decide)]
  have hdrop : (splitOnChar '\n' (fenceWrap s)).drop 1
      = splitOnChar '\n' s ++ [[btickC, btickC, btickC]] := by
    rw [hsplit]
    rfl
  have hsw : startsWith3Ticks (fenceWrap s) = true := rfl
  have hfalse : ∀ l ∈ splitOnChar '\n' s,
      (fun l => startsWith3Ticks (pystrip l)) l = false := by
    intro l hl
    show startsWith3Ticks (pystrip l) = false
    cases hsw2 : startsWith3Ticks (pystrip l) with
    | false => rfl
    | true =>
      exfalso
      have hb : btickC ∈ pystrip l := startsWith3Ticks_mem _ hsw2
      exact hbt (mem_splitOnChar_subset '\n' s l hl btickC (pystrip_subset l btickC hb))
  unfold stripFence
  rw [if_pos hsw]
  dsimp only
  rw [hdrop]
  rw [findIdx?_append_false _ _ _ 0 hfalse]
  rw [List.findIdx?_cons, if_pos (by decide)]
  dsimp only
  simp only [Nat.zero_add]
  rw [List.take_left]
  exact joinOnChar_splitOnChar '\n' s

/-- Extraction of a fenced object returns the object. -/
theorem extract_candidate_fenced (s : Text) (hs : ScannableObject s) :
    extract_candidate (fenceWrap s) = .ok s := by
  obtain ⟨h1, h2, h3, h4⟩ := hs
  unfold extract_candidate
  rw [pystrip_eq_self (fenceWrap s) btickC btickC rfl (by decide)
    (fenceWrap_getLast s) (by decide)]
  rw [stripFence_fenceWrap s h4]
  exact extractFrom_bare s h1 h3

/-- Extraction of a fenced object between prose returns the object. -/
theorem extract_candidate_prose_fenced (s p t : Text) (hs : ScannableObject s)
    (hp1 : lbraceC ∉ p) (hp2 : '[' ∉ p) (hpl : proseLead p = true) :
    extract_candidate (p ++ fenceWrap s ++ t) = .ok s := by
  obtain ⟨h1, h2, h3, h4⟩ := hs
  unfold extract_candidate
  rw [pystrip_concat p (fenceWrap s) t btickC btickC rfl (by decide)
    (fenceWrap_getLast s) (by decide)]
  obtain ⟨c, cs, hqd, hcb⟩ : ∃ c cs, p.dropWhile pyIsSpace = c :: cs ∧ ¬ c = btickC := by
    unfold proseLead at hpl
    rcases hqd : p.dropWhile pyIsSpace with _ | ⟨c, cs⟩
    · rw [hqd] at hpl
      simp at hpl
    · rw [hqd] at hpl
      refine ⟨c, cs, rfl, ?_⟩
      simpa using hpl
  rw [hqd]
  rw [stripFence_id ((c :: cs) ++ fenceWrap s ++ (t.reverse.dropWhile pyIsSpace).reverse)
    (startsWith3Ticks_head
      ((c :: cs) ++ fenceWrap s ++ (t.reverse.dropWhile pyIsSpace).reverse) c rfl hcb)]
  have hre : (c :: cs) ++ fenceWrap s ++ (t.reverse.dropWhile pyIsSpace).reverse
      = ((c :: cs) ++ [btickC, btickC, btickC, 'j', 's', 'o', 'n', '\n']) ++ s
        ++ (['\n', btickC, btickC, btickC] ++ (t.reverse.dropWhile pyIsSpace).reverse) := by
    simp [fenceWrap, List.append_assoc]
  rw [hre]
  have hqsub : ∀ a ∈ c :: cs, a ∈ p := by
    intro a ha
    apply (List.IsSuffix.sublist (List.dropWhile_suffix pyIsSpace)).subset
    rw [hqd]
    exact ha
  apply extractFrom_concat s _ _ h1 h3
  · intro hm
    rcases List.mem_append.mp hm with hm | hm
    · exact hp1 (hqsub _ hm)
    · exact absurd hm (by decide)
  · intro hm
    rcases List.mem_append.mp hm with hm | hm
    · exact hp2 (hqsub _ hm)
    · exact absurd hm (by decide)

/-- The later repair passes only see the extracted candidate, so equal
candidates give equal parses. -/
theorem extract_json_congr {α : Type} (loads : Text → Option α) (x y : Text)
    (h : extract_candidate x = extract_candidate y) :
    extract_json_from_response loads x = extract_json_from_response loads y := by
  unfold extract_json_from_response
  rw [h]

/-- C7: extraction round-trip.  For every well-formed JSON object text
(one that starts with a brace, ends with a brace, whose balanced scan -
which skips escaped quotes inside string values - closes exactly at its
end, and that holds no backtick) and every prose whose text contains no
opening brace, no opening bracket and no backtick and whose first
non-whitespace character exists and is not a backtick,
extract_json_from_response returns the same parse for the bare object,
for the object wrapped in a fenced markdown block, for the object
surrounded by the leading and trailing prose, and for the fenced block
surrounded by the prose; the bare extraction returns the object text
itself. -/
theorem c7_extraction_round_trip {α : Type} (loads : Text → Option α)
    (s p t : Text) (hs : ScannableObject s)
    (hp1 : lbraceC ∉ p) (hp2 : '[' ∉ p) (hp3 : btickC ∉ p)
    (hpl : proseLead p = true) :
    extract_candidate s = .ok s
      ∧ extract_json_from_response loads (fenceWrap s)
          = extract_json_from_response loads s
      ∧ extract_json_from_response loads (p ++ s ++ t)
          = extract_json_from_response loads s
      ∧ extract_json_from_response loads (p ++ fenceWrap s ++ t)
          = extract_json_from_response loads s := by
  refine ⟨extract_candidate_bare s hs, ?_, ?_, ?_⟩
  · exact extract_json_congr loads _ _
      ((extract_candidate_fenced s hs).trans (extract_candidate_bare s hs).symm)
  · exact extract_json_congr loads _ _
      ((extract_candidate_prose s p t hs hp1 hp2 hp3).trans
        (extract_candidate_bare s hs).symm)
  · exact extract_json_congr loads _ _
      ((extract_candidate_prose_fenced s p t hs hp1 hp2 hpl).trans
        (extract_candidate_bare s hs).symm)

/-- Witness for C7 at a concrete object whose string value holds an
escaped quote, with concrete prose on both sides. -/
theorem c7_extraction_round_trip_witness :
    (ScannableObject exS7 ∧ lbraceC ∉ prose7 ∧ '[' ∉ prose7 ∧ btickC ∉ prose7
        ∧ proseLead prose7 = true)
      ∧ (extract_candidate exS7 = .ok exS7
          ∧ extract_json_from_response (fun x : Text => some x) (fenceWrap exS7)
              = extract_json_from_response (fun x : Text => some x) exS7
          ∧ extract_json_from_response (fun x : Text => some x)
                (prose7 ++ exS7 ++ trail7)
              = extract_json_from_response (fun x : Text => some x) exS7
          ∧ extract_json_from_response (fun x : Text => some x)
                (prose7 ++ fenceWrap exS7 ++ trail7)
              = extract_json_from_response (fun x : Text => some x) exS7) :=
  ⟨⟨by decide, by decide, by decide, by decide, by decide⟩,
    c7_extraction_round_trip (fun x : Text => some x) exS7 prose7 trail7
      (by decide) (by decide) (by decide) (by decide) (by decide)⟩

end Spec2Proof
